import Mathlib

/-!
# go-chip8: a shallow embedding of the interpreter core

The Go sources `chip8/cpu.go`, `chip8/gpu.go`, `chip8/input.go` and
`chip8/chip8.go` are embedded as pure functions on an explicit machine state.

* Machine integers are natural numbers; every place where Go arithmetic wraps
  (`byte`, `uint16`) carries an explicit `% 256` or `% 65536`.
* Fixed-size Go arrays (`[16]byte`, `[2048]byte`, ...) are total functions
  `Nat → Nat`; every Go index expression that can leave the array is guarded by
  the array length, and leaving it yields `Outcome.panic` (Go's run-time
  "index out of range" panic, which ends the process).
* `rand.Intn(0xFF + 1)` is an extra argument of the step function.
* Writes to standard output (`fmt.Printf`) are not part of the state.
-/

namespace Chip8

/-- Modelled from the spec: the declaration of `MMU` (field `memory`) is not among the
sources; the spec gives the memory as 4096 bytes, addresses 0x000 to 0xFFF. -/
def memorySize : Nat := 4096

/-- Length of `GPU.FrameBuffer`, a `[2048]byte` (gpu.go). -/
def frameBufferSize : Nat := 2048

/-- The aggregate `System` with its components `CPU`, `MMU`, `GPU`, `SPU` and `Input`
flattened into one record.  `SoundTimer` is the field of `SPU` that cpu.go reads and
writes as a byte. -/
structure System where
  /-- The field `CPU.ProgramCounter`, a `uint16`. -/
  ProgramCounter : Nat
  /-- The field `CPU.IndexRegister`, a `uint16`. -/
  IndexRegister : Nat
  /-- The field `CPU.StackPointer`, a `uint16`. -/
  StackPointer : Nat
  /-- The field `CPU.VRegister`, a `[16]byte`. -/
  VRegister : Nat → Nat
  /-- The field `CPU.Stack`, a `[16]uint16`. -/
  Stack : Nat → Nat
  /-- The field `CPU.DelayTimer`, a `byte`. -/
  DelayTimer : Nat
  /-- The field `MMU.memory`. -/
  memory : Nat → Nat
  /-- The field `GPU.FrameBuffer`, a `[2048]byte`. -/
  FrameBuffer : Nat → Nat
  /-- The field `GPU.Redraw`. -/
  Redraw : Bool
  /-- The field `SPU.SoundTimer`, a `byte`. -/
  SoundTimer : Nat
  /-- The field `Input.KeyStates`, a `[16]byte`. -/
  KeyStates : Nat → Nat

/-- The ranges of the Go types of the fields: what every value of the Go structs
satisfies by typing alone. -/
def System.WellTyped (s : System) : Prop :=
  s.ProgramCounter < 65536 ∧ s.IndexRegister < 65536 ∧ s.StackPointer < 65536 ∧
  (∀ i, i < 16 → s.VRegister i < 256) ∧ (∀ i, i < 16 → s.Stack i < 65536) ∧
  s.DelayTimer < 256 ∧ (∀ a, a < memorySize → s.memory a < 256) ∧
  (∀ o, o < frameBufferSize → s.FrameBuffer o < 256) ∧ s.SoundTimer < 256 ∧
  (∀ k, k < 16 → s.KeyStates k < 256)

/-- What one call of `EmulateCycle` does: it returns `nil`, it returns an error
(`fmt.Errorf("Unknown opcode [family]: opcode")`), or the Go run time panics on an
array index out of range.  The state carried by `ok` and `error` is the state the
caller sees after the call. -/
inductive Outcome where
  | ok (s : System)
  | error (s : System) (family opcode : Nat)
  | panic

/-- The instruction fetch `uint16(memory[PC])<<8 | uint16(memory[PC+1])`;
`none` when one of the two index expressions is out of range. -/
def fetch (s : System) : Option Nat :=
  if s.ProgramCounter < memorySize ∧ (s.ProgramCounter + 1) % 65536 < memorySize then
    some (((s.memory s.ProgramCounter <<< 8) % 65536) ||| s.memory ((s.ProgramCounter + 1) % 65536))
  else none

/-- The operand `(opcode&0x0F00)>>8`. -/
def opX (opcode : Nat) : Nat := (opcode &&& 0x0F00) >>> 8

/-- The operand `(opcode&0x00F0)>>4`. -/
def opY (opcode : Nat) : Nat := (opcode &&& 0x00F0) >>> 4

/-- The statement `cpu.ProgramCounter += n` on a `uint16`. -/
def advance (s : System) (n : Nat) : System :=
  { s with ProgramCounter := (s.ProgramCounter + n) % 65536 }

/-- The statement `cpu.VRegister[x] = v`. -/
def setV (s : System) (x v : Nat) : System :=
  { s with VRegister := Function.update s.VRegister x v }

/-- The method `GPU.clearScreen` (gpu.go): the loop `for i := 0; i < 2048; i++` zeroes
cell `i`, then `Redraw` is set. -/
def clearScreen (s : System) : System :=
  { s with
    FrameBuffer := (List.range 2048).foldl (fun fb i => Function.update fb i 0) s.FrameBuffer
    Redraw := true }

/-- The conditional skips: `PC += 4` when the condition holds, `PC += 2` otherwise. -/
def skipIf (s : System) (c : Bool) : System :=
  if c then advance s 4 else advance s 2

/-- Family `0x8000`: the register-to-register operations. -/
def family8 (s : System) (opcode : Nat) : Outcome :=
  let x := opX opcode
  let y := opY opcode
  match opcode &&& 0x000F with
  | 0x0000 => .ok (advance (setV s x (s.VRegister y)) 2)
  | 0x0001 => .ok (advance (setV s x (s.VRegister x ||| s.VRegister y)) 2)
  | 0x0002 => .ok (advance (setV s x (s.VRegister x &&& s.VRegister y)) 2)
  | 0x0003 => .ok (advance (setV s x (s.VRegister x ^^^ s.VRegister y)) 2)
  | 0x0004 =>
    -- `byte(0xFF-int(VX))`: VX is a byte, so the difference is in 0..255
    let s1 := if s.VRegister y > (0xFF - s.VRegister x) % 256 then setV s 0xF 1 else setV s 0xF 0
    .ok (advance (setV s1 x ((s1.VRegister x + s1.VRegister y) % 256)) 2)
  | 0x0005 =>
    let s1 := if s.VRegister y > s.VRegister x then setV s 0xF 0 else setV s 0xF 1
    .ok (advance (setV s1 x ((s1.VRegister x + 256 - s1.VRegister y) % 256)) 2)
  | 0x0006 =>
    let s1 := setV s 0xF (s.VRegister x &&& 0x1)
    .ok (advance (setV s1 x (s1.VRegister x >>> 1)) 2)
  | 0x0007 =>
    let s1 := if s.VRegister x > s.VRegister y then setV s 0xF 0 else setV s 0xF 1
    .ok (advance (setV s1 x ((s1.VRegister y + 256 - s1.VRegister x) % 256)) 2)
  | 0x000E =>
    let s1 := setV s 0xF (s.VRegister x >>> 7)
    .ok (advance (setV s1 x ((s1.VRegister x <<< 1) % 256)) 2)
  | _ => .error s 0x8000 opcode

/-- The body of the innermost `if` of `DXYN`: the collision test
`if FrameBuffer[offset] == 1 { VRegister[0xF] = 1 }` and then `FrameBuffer[offset] ^= 1`. -/
def toggle (s : System) (offset : Nat) : System :=
  let s1 := if s.FrameBuffer offset = 1 then setV s 0xF 1 else s
  { s1 with FrameBuffer := Function.update s1.FrameBuffer offset (s1.FrameBuffer offset ^^^ 1) }

/-- One iteration of the inner loop of `DXYN` (`xline`), for the sprite row `pixel`. -/
def drawBit (x y yline pixel : Nat) (s : System) (xline : Nat) : System :=
  if pixel &&& (0x80 >>> xline) ≠ 0 then
    if frameBufferSize > (x + xline + (y + yline) * 64) % 65536 then
      toggle s ((x + xline + (y + yline) * 64) % 65536)
    else s
  else s

/-- One iteration of the outer loop of `DXYN` (`yline`); `none` when the read
`memory[I+yline]` is out of range. -/
def drawRow (x y : Nat) (acc : Option System) (yline : Nat) : Option System :=
  match acc with
  | none => none
  | some s =>
    if (s.IndexRegister + yline) % 65536 < memorySize then
      some ((List.range 8).foldl
        (drawBit x y yline (s.memory ((s.IndexRegister + yline) % 65536))) s)
    else none

/-- Family `0xD000`: the sprite blit `DXYN`. -/
def draw (s : System) (opcode : Nat) : Outcome :=
  let x := s.VRegister (opX opcode)
  let y := s.VRegister (opY opcode)
  let height := opcode &&& 0x000F
  match (List.range height).foldl (drawRow x y) (some (setV s 0xF 0)) with
  | none => .panic
  | some s1 => .ok (advance { s1 with Redraw := true } 2)

/-- Family `0xE000`: skips on a key state; `KeyStates[VX]` panics for `VX ≥ 16`. -/
def familyE (s : System) (opcode : Nat) : Outcome :=
  match opcode &&& 0x00FF with
  | 0x009E =>
    if s.VRegister (opX opcode) < 16 then
      .ok (skipIf s (s.KeyStates (s.VRegister (opX opcode)) != 0))
    else .panic
  | 0x00A1 =>
    if s.VRegister (opX opcode) < 16 then
      .ok (skipIf s (s.KeyStates (s.VRegister (opX opcode)) == 0))
    else .panic
  | _ => .error s 0xE000 opcode

/-- The block "Update timers" that ends family `0xF000`. -/
def updateTimers (s : System) : System :=
  let s1 := if s.DelayTimer > 0 then { s with DelayTimer := s.DelayTimer - 1 } else s
  if s1.SoundTimer > 0 then { s1 with SoundTimer := s1.SoundTimer - 1 } else s1

/-- One iteration of the loop of `FX0A`; the pair is the state and `keyPress`. -/
def keyWaitStep (x : Nat) (acc : System × Bool) (i : Nat) : System × Bool :=
  if acc.1.KeyStates i ≠ 0 then (setV acc.1 x i, true) else acc

/-- One iteration of the loop of `FX55`: `memory[I+i] = V[i]`. -/
def storeStep (acc : Option System) (i : Nat) : Option System :=
  match acc with
  | none => none
  | some s =>
    if (s.IndexRegister + i) % 65536 < memorySize then
      some { s with memory := Function.update s.memory ((s.IndexRegister + i) % 65536) (s.VRegister i) }
    else none

/-- One iteration of the loop of `FX65`: `V[i] = memory[I+i]`. -/
def loadStep (acc : Option System) (i : Nat) : Option System :=
  match acc with
  | none => none
  | some s =>
    if (s.IndexRegister + i) % 65536 < memorySize then
      some (setV s i (s.memory ((s.IndexRegister + i) % 65536)))
    else none

/-- The three writes of `FX33`, in order; `none` when an index is out of range. -/
def storeBCD (s : System) (v : Nat) : Option System :=
  if s.IndexRegister < memorySize then
    let m1 := Function.update s.memory s.IndexRegister (v / 100)
    if (s.IndexRegister + 1) % 65536 < memorySize then
      let m2 := Function.update m1 ((s.IndexRegister + 1) % 65536) ((v / 10) % 10)
      if (s.IndexRegister + 2) % 65536 < memorySize then
        some { s with memory := Function.update m2 ((s.IndexRegister + 2) % 65536) ((v % 100) % 10) }
      else none
    else none
  else none

/-- The end of a case of family `0xF000` that reaches the timer update. -/
def finishF (r : Option System) : Outcome :=
  match r with
  | none => .panic
  | some s => .ok (updateTimers s)

/-- Family `0xF000`: timers, index register, memory transfers. -/
def familyF (s : System) (opcode : Nat) : Outcome :=
  let x := opX opcode
  match opcode &&& 0x00FF with
  | 0x0007 => finishF (some (advance (setV s x s.DelayTimer) 2))
  | 0x000A =>
    let r := (List.range 16).foldl (keyWaitStep x) (s, false)
    if !r.2 then .ok r.1 else finishF (some (advance r.1 2))
  | 0x0015 => finishF (some (advance { s with DelayTimer := s.VRegister x } 2))
  | 0x0018 => finishF (some (advance { s with SoundTimer := s.VRegister x } 2))
  | 0x001E =>
    let s1 := if (s.IndexRegister + s.VRegister x) % 65536 > 0xFFF then setV s 0xF 1 else setV s 0xF 0
    finishF (some (advance { s1 with IndexRegister := (s1.IndexRegister + s1.VRegister x) % 65536 } 2))
  | 0x0029 => finishF (some (advance { s with IndexRegister := (s.VRegister x * 0x5) % 65536 } 2))
  | 0x0033 => finishF ((storeBCD s (s.VRegister x)).map (fun s1 => advance s1 2))
  | 0x0055 =>
    finishF (((List.range (x + 1)).foldl storeStep (some s)).map (fun s1 =>
      advance { s1 with IndexRegister := (s1.IndexRegister + (x + 1)) % 65536 } 2))
  | 0x0065 =>
    finishF (((List.range x).foldl loadStep (some s)).map (fun s1 =>
      advance { s1 with IndexRegister := (s1.IndexRegister + (x + 1)) % 65536 } 2))
  | _ => .error s 0xF000 opcode

/-- The body of `EmulateCycle` after the fetch: the switch on `opcode & 0xF000`.
`random` is the value `rand.Intn(0xFF + 1)` returns when it is called. -/
def execute (s : System) (random opcode : Nat) : Outcome :=
  match opcode &&& 0xF000 with
  | 0x0000 =>
    match opcode &&& 0x000F with
    | 0x0000 => .ok (advance (clearScreen s) 2)
    | 0x000E =>
      let s1 := { s with StackPointer := (s.StackPointer + 65535) % 65536 }
      if s1.StackPointer < 16 then
        .ok (advance { s1 with ProgramCounter := s1.Stack s1.StackPointer } 2)
      else .panic
    | _ => .error s 0x0000 opcode
  | 0x1000 => .ok { s with ProgramCounter := opcode &&& 0x0FFF }
  | 0x2000 =>
    if s.StackPointer < 16 then
      .ok { s with
        Stack := Function.update s.Stack s.StackPointer s.ProgramCounter
        StackPointer := (s.StackPointer + 1) % 65536
        ProgramCounter := opcode &&& 0x0FFF }
    else .panic
  | 0x3000 => .ok (skipIf s (s.VRegister (opX opcode) == opcode &&& 0x00FF))
  | 0x4000 => .ok (skipIf s (s.VRegister (opX opcode) != opcode &&& 0x00FF))
  | 0x5000 => .ok (skipIf s (s.VRegister (opX opcode) == s.VRegister (opY opcode)))
  | 0x6000 => .ok (advance (setV s (opX opcode) (opcode &&& 0x00FF)) 2)
  | 0x7000 =>
    .ok (advance (setV s (opX opcode) ((s.VRegister (opX opcode) + (opcode &&& 0x00FF)) % 256)) 2)
  | 0x8000 => family8 s opcode
  | 0x9000 => .ok (skipIf s (s.VRegister (opX opcode) != s.VRegister (opY opcode)))
  | 0xA000 => .ok (advance { s with IndexRegister := opcode &&& 0x0FFF } 2)
  | 0xB000 => .ok { s with ProgramCounter := ((opcode &&& 0x0FFF) + s.VRegister 0) % 65536 }
  | 0xC000 => .ok (advance (setV s (opX opcode) ((random % 256) &&& (opcode &&& 0x00FF))) 2)
  | 0xD000 => draw s opcode
  | 0xE000 => familyE s opcode
  | 0xF000 => familyF s opcode
  | _ => .ok s

/-- The method `CPU.EmulateCycle` (cpu.go). -/
def EmulateCycle (s : System) (random : Nat) : Outcome :=
  match fetch s with
  | none => .panic
  | some opcode => execute s random opcode

/-- The 16-bit word with the four hexadecimal digits `a b c d`, as in the opcode
patterns `8XY4`, `DXYN`: the word `0x8XY4` is `word 8 X Y 4`. -/
def word (a b c d : Nat) : Nat := a * 4096 + b * 256 + c * 16 + d

/-- A concrete machine for evaluating the definitions: the bytes `prog` loaded at
0x200 as `LoadRom` places them, `regs` in V0, V1, ..., the program counter at 0x200
and everything else zero. -/
def machine (prog regs : List Nat) : System where
  ProgramCounter := 0x200
  IndexRegister := 0
  StackPointer := 0
  VRegister := fun i => regs.getD i 0
  Stack := fun _ => 0
  DelayTimer := 0
  memory := fun a => if 0x200 ≤ a then prog.getD (a - 0x200) 0 else 0
  FrameBuffer := fun _ => 0
  Redraw := false
  SoundTimer := 0
  KeyStates := fun _ => 0

/-- The framebuffer offsets that the inner loop of `DXYN` toggles for one sprite row,
in loop order: the set bits of `pixel` whose offset is inside the framebuffer. -/
def rowOffsets (x y yline pixel : Nat) : List Nat :=
  (List.range 8).filterMap (fun xline =>
    if pixel &&& (0x80 >>> xline) ≠ 0 ∧ frameBufferSize > (x + xline + (y + yline) * 64) % 65536
    then some ((x + xline + (y + yline) * 64) % 65536) else none)

/-- The framebuffer offsets that `DXYN` toggles for the first `height` sprite rows read
from `mem` at `I`, in loop order. -/
def spriteOffsets (x y I : Nat) (mem : Nat → Nat) : Nat → List Nat
  | 0 => []
  | height + 1 =>
    spriteOffsets x y I mem height ++ rowOffsets x y height (mem ((I + height) % 65536))

/-- A machine that draws the same two-row sprite twice: D012 at 0x200 and at 0x202,
V0 = 3, V1 = 4, and the index register at 0x200, so that the sprite rows are the bytes
0xD0 and 0x12. -/
def drawTwiceMachine : System :=
  { machine [0xD0, 0x12, 0xD0, 0x12] [3, 4] with IndexRegister := 0x200 }

/-- The host loop calling `EmulateCycle` `n` times, stopping at the first call that does
not return `nil`; `random k` is what `rand.Intn` returns during call number `k`. -/
def run (random : Nat → Nat) (s : System) : Nat → Outcome
  | 0 => .ok s
  | n + 1 =>
    match run random s n with
    | .ok s1 => EmulateCycle s1 (random n)
    | .error s1 family opcode => .error s1 family opcode
    | .panic => .panic

/-- A program that stores V0..V3 at 0x300, changes V3 and loads V0..V3 from 0x300:
A300, F355, 6309, A300, F365, started with V0..V3 = 1, 2, 3, 7. -/
def roundTripMachine : System :=
  machine [0xA3, 0x00, 0xF3, 0x55, 0x63, 0x09, 0xA3, 0x00, 0xF3, 0x65] [1, 2, 3, 7]

/-- What `LoadRom` returns once the file has been opened and read: `nil`, or the error
"Error: ROM too big for memory".  The state is the one the caller sees afterwards. -/
inductive LoadResult where
  | ok (s : System)
  | tooBig (s : System)

/-- The method `System.LoadRom` (chip8.go) from the point where the whole file has been
read into `buffer` (`lSize` is its length): the copy loop behind the size check.  Opening
and reading the file are not modelled. -/
def LoadRom (s : System) (buffer : List Nat) : LoadResult :=
  if (4096 - 512) > buffer.length then
    .ok { s with
      memory := (List.range buffer.length).foldl
        (fun mem i => Function.update mem (i + 512) (buffer.getD i 0)) s.memory }
  else .tooBig s

/-- What `SetKeyState` does: it returns `nil`, one of its two errors, or the Go run time
panics on `KeyStates[keyindex]`. -/
inductive KeyResult where
  | ok (s : System)
  | invalidKey (s : System)
  | invalidValue (s : System)
  | panic

/-- The method `Input.SetKeyState` (input.go); `keyindex` is an `int`, `value` a `byte`. -/
def SetKeyState (s : System) (keyindex : Int) (value : Nat) : KeyResult :=
  if keyindex < 0 ∧ keyindex > 16 then .invalidKey s
  else if value < 0 ∧ value > 1 then .invalidValue s
  else if 0 ≤ keyindex ∧ keyindex < 16 then
    .ok { s with KeyStates := Function.update s.KeyStates keyindex.toNat value }
  else .panic

/-- The constructor `New` (chip8.go): every component is a zero value, then
`CPU.initialize` sets the program counter to 0x200 and the delay timer to 60 and
`GPU.initialize` clears `Redraw`.  The methods `MMU.initialize` and `SPU.initialize` are
not among the sources: what they leave in the memory and in the sound timer are the
parameters `memory0` and `soundTimer0`. -/
def New (memory0 : Nat → Nat) (soundTimer0 : Nat) : System where
  ProgramCounter := 0x200
  IndexRegister := 0
  StackPointer := 0
  VRegister := fun _ => 0
  Stack := fun _ => 0
  DelayTimer := 60
  memory := memory0
  FrameBuffer := fun _ => 0
  Redraw := false
  SoundTimer := soundTimer0
  KeyStates := fun _ => 0

/-- The states the host loop of main.go can produce: the fresh system, the system after
an accepted `LoadRom`, and from there every state after an `EmulateCycle` that returned,
after a `SetKeyState` that returned `nil`, and after the host has cleared `Redraw`. -/
inductive Reachable (memory0 : Nat → Nat) (soundTimer0 : Nat) : System → Prop where
  | fresh : Reachable memory0 soundTimer0 (New memory0 soundTimer0)
  | load {buffer : List Nat} {s : System} :
      LoadRom (New memory0 soundTimer0) buffer = .ok s → Reachable memory0 soundTimer0 s
  | step {s s1 : System} {random : Nat} :
      Reachable memory0 soundTimer0 s → EmulateCycle s random = .ok s1 →
      Reachable memory0 soundTimer0 s1
  | key {s s1 : System} {keyindex : Int} {value : Nat} :
      Reachable memory0 soundTimer0 s → SetKeyState s keyindex value = .ok s1 →
      Reachable memory0 soundTimer0 s1
  | redrawn {s : System} :
      Reachable memory0 soundTimer0 s → Reachable memory0 soundTimer0 { s with Redraw := false }

/-- The values of the index expressions `memory[...]` in one call of `EmulateCycle`, in
program order: the fetch at PC and PC+1, then `I+yline` for each sprite row of DXYN,
`I`, `I+1`, `I+2` for FX33, `I+i` for `i <= X` in FX55 and for `i < X` in FX65 (all in
`uint16` arithmetic).  The call evaluates them up to the first that is out of range. -/
def memoryAddresses (s : System) : List Nat :=
  [s.ProgramCounter, (s.ProgramCounter + 1) % 65536] ++
    match fetch s with
    | none => []
    | some opcode =>
      if opcode &&& 0xF000 = 0xD000 then
        (List.range (opcode &&& 0x000F)).map (fun yline => (s.IndexRegister + yline) % 65536)
      else if opcode &&& 0xF000 = 0xF000 then
        if opcode &&& 0x00FF = 0x0033 then
          [s.IndexRegister, (s.IndexRegister + 1) % 65536, (s.IndexRegister + 2) % 65536]
        else if opcode &&& 0x00FF = 0x0055 then
          (List.range (opX opcode + 1)).map (fun i => (s.IndexRegister + i) % 65536)
        else if opcode &&& 0x00FF = 0x0065 then
          (List.range (opX opcode)).map (fun i => (s.IndexRegister + i) % 65536)
        else []
      else []

/-- The condition of the sprite blit postcondition, in the words of the specification:
offset `o` is the target `(x + c) + (y + r) * 64` of a set bit, bit `7 - c` of sprite
row `r < N` read at `memory[I + r]`, with `x = VX` and `y = VY`. -/
def spriteTarget (s : System) (X Y N o : Nat) : Prop :=
  ∃ r c, r < N ∧ c < 8 ∧ (s.memory (s.IndexRegister + r)).testBit (7 - c) = true ∧
    o = (s.VRegister X + c) + (s.VRegister Y + r) * 64

/-! ## Decoding -/

theorem and_shiftLeft_mask (x m k : Nat) : x &&& (m <<< k) = ((x >>> k) &&& m) <<< k := by
  apply Nat.eq_of_testBit_eq
  intro j
  by_cases h : k ≤ j
  · simp [Nat.testBit_shiftLeft, Nat.testBit_shiftRight, h, Nat.add_sub_cancel' h]
  · simp [Nat.testBit_shiftLeft, Nat.testBit_shiftRight, h]

theorem and_F000 (x : Nat) : x &&& 0xF000 = x / 4096 % 16 * 4096 := by
  have h := and_shiftLeft_mask x 15 12
  rw [Nat.shiftLeft_eq, Nat.shiftRight_eq_div_pow, Nat.shiftLeft_eq,
    show (15:Nat) = 2 ^ 4 - 1 from rfl, Nat.and_pow_two_sub_one_eq_mod] at h
  simpa using h

theorem opX_eq (x : Nat) : opX x = x / 256 % 16 := by
  have h := and_shiftLeft_mask x 15 8
  have e : (15 : Nat) <<< 8 = 0x0F00 := by decide
  rw [e] at h
  rw [opX, h, Nat.shiftLeft_shiftRight, Nat.shiftRight_eq_div_pow]
  exact Nat.and_pow_two_sub_one_eq_mod _ 4

theorem opY_eq (x : Nat) : opY x = x / 16 % 16 := by
  have h := and_shiftLeft_mask x 15 4
  have e : (15 : Nat) <<< 4 = 0x00F0 := by decide
  rw [e] at h
  rw [opY, h, Nat.shiftLeft_shiftRight, Nat.shiftRight_eq_div_pow]
  exact Nat.and_pow_two_sub_one_eq_mod _ 4

theorem and_0FFF (x : Nat) : x &&& 0x0FFF = x % 4096 := Nat.and_pow_two_sub_one_eq_mod x 12

theorem and_00FF (x : Nat) : x &&& 0x00FF = x % 256 := Nat.and_pow_two_sub_one_eq_mod x 8

theorem and_000F (x : Nat) : x &&& 0x000F = x % 16 := Nat.and_pow_two_sub_one_eq_mod x 4

theorem word_family {a b c d : Nat} (ha : a < 16) (hb : b < 16) (hc : c < 16) (hd : d < 16) :
    word a b c d &&& 0xF000 = a * 4096 := by
  rw [and_F000]; unfold word; omega

theorem word_low (a b c : Nat) {d : Nat} (hd : d < 16) : word a b c d &&& 0x000F = d := by
  rw [and_000F]; unfold word; omega

theorem word_NN (a b : Nat) {c d : Nat} (hc : c < 16) (hd : d < 16) :
    word a b c d &&& 0x00FF = c * 16 + d := by
  rw [and_00FF]; unfold word; omega

theorem word_NNN (a : Nat) {b c d : Nat} (hb : b < 16) (hc : c < 16) (hd : d < 16) :
    word a b c d &&& 0x0FFF = b * 256 + c * 16 + d := by
  rw [and_0FFF]; unfold word; omega

theorem opX_word (a : Nat) {b c d : Nat} (hb : b < 16) (hc : c < 16) (hd : d < 16) :
    opX (word a b c d) = b := by
  rw [opX_eq]; unfold word; omega

theorem opY_word (a b : Nat) {c d : Nat} (hc : c < 16) (hd : d < 16) :
    opY (word a b c d) = c := by
  rw [opY_eq]; unfold word; omega

theorem getD_lt_of_forall {l : List Nat} {n : Nat} (h : ∀ v ∈ l, v < n) (hn : 0 < n) (i : Nat) :
    l.getD i 0 < n := by
  by_cases hi : i < l.length
  · rw [List.getD_eq_getElem l 0 hi]
    exact h _ (List.getElem_mem hi)
  · rw [List.getD_eq_default l 0 (by omega)]
    exact hn

theorem machine_wellTyped {prog regs : List Nat} (hp : ∀ v ∈ prog, v < 256)
    (hr : ∀ v ∈ regs, v < 256) : (machine prog regs).WellTyped := by
  refine ⟨by simp [machine], by simp [machine], by simp [machine], ?_, by simp [machine],
    by simp [machine], ?_, by simp [machine], by simp [machine], by simp [machine]⟩
  · intro i _
    exact getD_lt_of_forall hr (by decide) i
  · intro a _
    show (if 0x200 ≤ a then prog.getD (a - 0x200) 0 else 0) < 256
    split
    · exact getD_lt_of_forall hp (by decide) _
    · decide

/-! ## C1: ADD with carry -/

/-- C1. Opcode 8XY4 with X and Y both different from F: one `EmulateCycle` returns
normally, VX becomes (VX + VY) mod 256 of the values before the step, VF becomes 1
when VX + VY exceeds 255 and 0 otherwise, and no other register changes. -/
theorem add_with_carry (s : System) (random X Y : Nat) (hs : s.WellTyped)
    (hX : X < 15) (hY : Y < 15) (hop : fetch s = some (word 8 X Y 4)) :
    ∃ s1, EmulateCycle s random = .ok s1 ∧
      s1.VRegister X = (s.VRegister X + s.VRegister Y) % 256 ∧
      s1.VRegister 0xF = (if s.VRegister X + s.VRegister Y > 255 then 1 else 0) ∧
      ∀ r, r ≠ X → r ≠ 0xF → s1.VRegister r = s.VRegister r := by
  have hX16 : X < 16 := by omega
  have hY16 : Y < 16 := by omega
  have hvx : s.VRegister X < 256 := hs.2.2.2.1 X hX16
  have hfam : word 8 X Y 4 &&& 0xF000 = 0x8000 :=
    word_family (by decide) hX16 hY16 (by decide)
  have hlow : word 8 X Y 4 &&& 0x000F = 4 := word_low 8 X Y (by decide)
  have hx : opX (word 8 X Y 4) = X := opX_word 8 hX16 hY16 (by decide)
  have hy : opY (word 8 X Y 4) = Y := opY_word 8 X hY16 (by decide)
  simp only [EmulateCycle, hop, execute, hfam, family8, hlow, hx, hy]
  refine ⟨_, rfl, ?_, ?_, ?_⟩
  · have hXF : X ≠ 15 := by omega
    have hYF : Y ≠ 15 := by omega
    split <;> simp [advance, setV, Function.update_apply, hXF, hYF]
  · have hXF : ¬ (15 = X) := by omega
    have hmod : (0xFF - s.VRegister X) % 256 = 0xFF - s.VRegister X :=
      Nat.mod_eq_of_lt (by omega)
    rw [hmod]
    by_cases hc : s.VRegister Y > 0xFF - s.VRegister X
    · have hsum : s.VRegister X + s.VRegister Y > 255 := by omega
      simp [hc, hsum, advance, setV, Function.update_apply, hXF]
    · have hsum : ¬ s.VRegister X + s.VRegister Y > 255 := by omega
      simp [hc, hsum, advance, setV, Function.update_apply, hXF]
  · intro r hrX hrF
    split <;> simp [advance, setV, Function.update_apply, hrX, hrF]

/-- C1, at concrete inputs: VX = 0xFF, VY = 0x01 gives VX = 0x00 and VF = 1;
VX = 0x01, VY = 0x01 gives VX = 0x02 and VF = 0 (opcode 8014 at 0x200). -/
theorem add_with_carry_witness :
    (∃ s1, EmulateCycle (machine [0x80, 0x14] [0xFF, 0x01]) 0 = .ok s1 ∧
      s1.VRegister 0 = 0x00 ∧ s1.VRegister 0xF = 1) ∧
    (∃ s1, EmulateCycle (machine [0x80, 0x14] [0x01, 0x01]) 0 = .ok s1 ∧
      s1.VRegister 0 = 0x02 ∧ s1.VRegister 0xF = 0) := by
  constructor
  · obtain ⟨s1, h1, h2, h3, _⟩ := add_with_carry (machine [0x80, 0x14] [0xFF, 0x01]) 0 0 1
      (machine_wellTyped (by decide) (by decide)) (by decide) (by decide) (by decide)
    exact ⟨s1, h1, h2, h3⟩
  · obtain ⟨s1, h1, h2, h3, _⟩ := add_with_carry (machine [0x80, 0x14] [0x01, 0x01]) 0 0 1
      (machine_wellTyped (by decide) (by decide)) (by decide) (by decide) (by decide)
    exact ⟨s1, h1, h2, h3⟩

/-! ## C2: SUB with borrow -/

theorem EmulateCycle_family8 {s : System} {X Y d : Nat} (random : Nat)
    (hop : fetch s = some (word 8 X Y d)) (hX : X < 16) (hY : Y < 16) (hd : d < 16) :
    EmulateCycle s random = family8 s (word 8 X Y d) := by
  have hfam : word 8 X Y d &&& 0xF000 = 0x8000 := word_family (by decide) hX hY hd
  simp only [EmulateCycle, hop, execute, hfam]

/-- C2. For X and Y both different from F: opcode 8XY5 sets VX to (VX - VY) mod 256 and
VF to 0 when VY > VX and to 1 otherwise; opcode 8XY7 sets VX to (VY - VX) mod 256 and
VF to 0 when VX > VY and to 1 otherwise; all operands are the values before the step. -/
theorem sub_with_borrow (s : System) (random X Y : Nat) (hs : s.WellTyped)
    (hX : X < 15) (hY : Y < 15) :
    (fetch s = some (word 8 X Y 5) →
      ∃ s1, EmulateCycle s random = .ok s1 ∧
        (s1.VRegister X : Int) = ((s.VRegister X : Int) - s.VRegister Y) % 256 ∧
        s1.VRegister 0xF = (if s.VRegister Y > s.VRegister X then 0 else 1)) ∧
    (fetch s = some (word 8 X Y 7) →
      ∃ s1, EmulateCycle s random = .ok s1 ∧
        (s1.VRegister X : Int) = ((s.VRegister Y : Int) - s.VRegister X) % 256 ∧
        s1.VRegister 0xF = (if s.VRegister X > s.VRegister Y then 0 else 1)) := by
  have hX16 : X < 16 := by omega
  have hY16 : Y < 16 := by omega
  have hvx : s.VRegister X < 256 := hs.2.2.2.1 X hX16
  have hvy : s.VRegister Y < 256 := hs.2.2.2.1 Y hY16
  have hXF : X ≠ 15 := by omega
  have hYF : Y ≠ 15 := by omega
  have hFX : ¬ (15 = X) := by omega
  constructor
  · intro hop
    have hlow : word 8 X Y 5 &&& 0x000F = 5 := word_low 8 X Y (by decide)
    have hx : opX (word 8 X Y 5) = X := opX_word 8 hX16 hY16 (by decide)
    have hy : opY (word 8 X Y 5) = Y := opY_word 8 X hY16 (by decide)
    rw [EmulateCycle_family8 random hop hX16 hY16 (by decide)]
    simp only [family8, hlow, hx, hy]
    refine ⟨_, rfl, ?_, ?_⟩
    · split <;> simp [advance, setV, Function.update_apply, hXF, hYF] <;> omega
    · split <;> simp [advance, setV, Function.update_apply, hFX]
  · intro hop
    have hlow : word 8 X Y 7 &&& 0x000F = 7 := word_low 8 X Y (by decide)
    have hx : opX (word 8 X Y 7) = X := opX_word 8 hX16 hY16 (by decide)
    have hy : opY (word 8 X Y 7) = Y := opY_word 8 X hY16 (by decide)
    rw [EmulateCycle_family8 random hop hX16 hY16 (by decide)]
    simp only [family8, hlow, hx, hy]
    refine ⟨_, rfl, ?_, ?_⟩
    · split <;> simp [advance, setV, Function.update_apply, hXF, hYF] <;> omega
    · split <;> simp [advance, setV, Function.update_apply, hFX]

/-- C2, at concrete inputs: for 8XY5, VX = 0x01 and VY = 0x02 give VX = 0xFF and VF = 0,
VX = 0x05 and VY = 0x02 give VX = 0x03 and VF = 1; for 8XY7, VX = 0x05 and VY = 0x02
give VX = 0xFD and VF = 0. -/
theorem sub_with_borrow_witness :
    (∃ s1, EmulateCycle (machine [0x80, 0x15] [0x01, 0x02]) 0 = .ok s1 ∧
      s1.VRegister 0 = 0xFF ∧ s1.VRegister 0xF = 0) ∧
    (∃ s1, EmulateCycle (machine [0x80, 0x15] [0x05, 0x02]) 0 = .ok s1 ∧
      s1.VRegister 0 = 0x03 ∧ s1.VRegister 0xF = 1) ∧
    (∃ s1, EmulateCycle (machine [0x80, 0x17] [0x05, 0x02]) 0 = .ok s1 ∧
      s1.VRegister 0 = 0xFD ∧ s1.VRegister 0xF = 0) := by
  refine ⟨?_, ?_, ?_⟩
  · obtain ⟨s1, h1, h2, h3⟩ := (sub_with_borrow (machine [0x80, 0x15] [0x01, 0x02]) 0 0 1
      (machine_wellTyped (by decide) (by decide)) (by decide) (by decide)).1 (by decide)
    have e0 : (machine [0x80, 0x15] [0x01, 0x02]).VRegister 0 = 1 := rfl
    have e1 : (machine [0x80, 0x15] [0x01, 0x02]).VRegister 1 = 2 := rfl
    rw [e0, e1] at h2
    exact ⟨s1, h1, by omega, h3⟩
  · obtain ⟨s1, h1, h2, h3⟩ := (sub_with_borrow (machine [0x80, 0x15] [0x05, 0x02]) 0 0 1
      (machine_wellTyped (by decide) (by decide)) (by decide) (by decide)).1 (by decide)
    have e0 : (machine [0x80, 0x15] [0x05, 0x02]).VRegister 0 = 5 := rfl
    have e1 : (machine [0x80, 0x15] [0x05, 0x02]).VRegister 1 = 2 := rfl
    rw [e0, e1] at h2
    exact ⟨s1, h1, by omega, h3⟩
  · obtain ⟨s1, h1, h2, h3⟩ := (sub_with_borrow (machine [0x80, 0x17] [0x05, 0x02]) 0 0 1
      (machine_wellTyped (by decide) (by decide)) (by decide) (by decide)).2 (by decide)
    have e0 : (machine [0x80, 0x17] [0x05, 0x02]).VRegister 0 = 5 := rfl
    have e1 : (machine [0x80, 0x17] [0x05, 0x02]).VRegister 1 = 2 := rfl
    rw [e0, e1] at h2
    exact ⟨s1, h1, by omega, h3⟩

/-! ## C3: shift flag capture -/

@[simp] theorem toggle_IndexRegister (s : System) (o : Nat) :
    (toggle s o).IndexRegister = s.IndexRegister := by
  unfold toggle; split <;> rfl

@[simp] theorem toggle_memory (s : System) (o : Nat) : (toggle s o).memory = s.memory := by
  unfold toggle; split <;> rfl

@[simp] theorem toggle_ProgramCounter (s : System) (o : Nat) :
    (toggle s o).ProgramCounter = s.ProgramCounter := by
  unfold toggle; split <;> rfl

theorem toggle_FrameBuffer (s : System) (o : Nat) :
    (toggle s o).FrameBuffer = Function.update s.FrameBuffer o (s.FrameBuffer o ^^^ 1) := by
  unfold toggle; split <;> rfl

theorem toggle_VRegister (s : System) (o : Nat) :
    (toggle s o).VRegister =
      if s.FrameBuffer o = 1 then Function.update s.VRegister 0xF 1 else s.VRegister := by
  unfold toggle; split <;> rfl

@[simp] theorem foldl_toggle_IndexRegister (l : List Nat) (s : System) :
    (l.foldl toggle s).IndexRegister = s.IndexRegister := by
  induction l generalizing s with
  | nil => rfl
  | cons o l ih => simp [ih]

@[simp] theorem foldl_toggle_memory (l : List Nat) (s : System) :
    (l.foldl toggle s).memory = s.memory := by
  induction l generalizing s with
  | nil => rfl
  | cons o l ih => simp [ih]

@[simp] theorem foldl_toggle_ProgramCounter (l : List Nat) (s : System) :
    (l.foldl toggle s).ProgramCounter = s.ProgramCounter := by
  induction l generalizing s with
  | nil => rfl
  | cons o l ih => simp [ih]

theorem foldl_drawBit (x y yline pixel : Nat) (l : List Nat) (s : System) :
    l.foldl (drawBit x y yline pixel) s =
      (l.filterMap (fun xline =>
        if pixel &&& (0x80 >>> xline) ≠ 0 ∧
            frameBufferSize > (x + xline + (y + yline) * 64) % 65536
        then some ((x + xline + (y + yline) * 64) % 65536) else none)).foldl toggle s := by
  induction l generalizing s with
  | nil => rfl
  | cons a l ih =>
    rw [List.foldl_cons, ih, List.filterMap_cons]
    unfold drawBit
    by_cases h1 : pixel &&& (0x80 >>> a) ≠ 0
    · by_cases h2 : frameBufferSize > (x + a + (y + yline) * 64) % 65536
      · simp [h1, h2]
      · simp [h1, h2]
    · simp [h1]

theorem foldl_drawRow (x y : Nat) (s : System) (n : Nat)
    (h : ∀ r, r < n → (s.IndexRegister + r) % 65536 < memorySize) :
    (List.range n).foldl (drawRow x y) (some s) =
      some ((spriteOffsets x y s.IndexRegister s.memory n).foldl toggle s) := by
  induction n with
  | zero => rfl
  | succ n ih =>
    rw [List.range_succ, List.foldl_append, ih (fun r hr => h r (Nat.lt_succ_of_lt hr))]
    simp only [List.foldl_cons, List.foldl_nil, drawRow, foldl_toggle_IndexRegister,
      foldl_toggle_memory, h n (Nat.lt_succ_self n), if_true, spriteOffsets, List.foldl_append]
    rw [foldl_drawBit]
    rfl

theorem one_xor_mod_two (n : Nat) : 1 ^^^ (n % 2) = (n + 1) % 2 := by
  rcases Nat.mod_two_eq_zero_or_one n with h | h
  · rw [h]
    have : (n + 1) % 2 = 1 := by omega
    rw [this]
    decide
  · rw [h]
    have : (n + 1) % 2 = 0 := by omega
    rw [this]
    decide

theorem foldl_toggle_FrameBuffer (l : List Nat) (s : System) (k : Nat) :
    (l.foldl toggle s).FrameBuffer k = s.FrameBuffer k ^^^ (l.count k % 2) := by
  induction l generalizing s with
  | nil => simp
  | cons o l ih =>
    rw [List.foldl_cons, ih, toggle_FrameBuffer]
    by_cases hk : k = o
    · subst hk
      rw [Function.update_same, List.count_cons_self, Nat.xor_assoc, one_xor_mod_two]
    · have hok : (o == k) = false := by
        simpa using fun h : o = k => hk h.symm
      rw [Function.update_noteq hk, List.count_cons, hok]
      simp

theorem foldl_toggle_flag_persists (l : List Nat) (s : System) (h : s.VRegister 0xF = 1) :
    (l.foldl toggle s).VRegister 0xF = 1 := by
  induction l generalizing s with
  | nil => exact h
  | cons o l ih =>
    rw [List.foldl_cons]
    apply ih
    rw [toggle_VRegister]
    split
    · simp
    · exact h

theorem foldl_toggle_collision (l : List Nat) (s : System)
    (h : ∃ k, k ∈ l ∧ s.FrameBuffer k = 1) : (l.foldl toggle s).VRegister 0xF = 1 := by
  induction l generalizing s with
  | nil =>
    obtain ⟨k, hk, _⟩ := h
    cases hk
  | cons o l ih =>
    rw [List.foldl_cons]
    by_cases ho : s.FrameBuffer o = 1
    · apply foldl_toggle_flag_persists
      rw [toggle_VRegister, if_pos ho]
      simp
    · obtain ⟨k, hk, hk1⟩ := h
      have hne : k ≠ o := fun e => ho (e ▸ hk1)
      apply ih
      refine ⟨k, ?_, ?_⟩
      · rcases List.mem_cons.mp hk with e | hmem
        · exact absurd e hne
        · exact hmem
      · rw [toggle_FrameBuffer, Function.update_noteq hne]
        exact hk1

theorem spriteOffsets_congr (x y I : Nat) (mem mem1 : Nat → Nat) (n : Nat)
    (h : ∀ r, r < n → mem1 ((I + r) % 65536) = mem ((I + r) % 65536)) :
    spriteOffsets x y I mem1 n = spriteOffsets x y I mem n := by
  induction n with
  | zero => rfl
  | succ n ih =>
    simp only [spriteOffsets]
    rw [ih (fun r hr => h r (Nat.lt_succ_of_lt hr)), h n (Nat.lt_succ_self n)]

theorem draw_eq (s : System) (opcode : Nat)
    (h : ∀ r, r < opcode &&& 0x000F → (s.IndexRegister + r) % 65536 < memorySize) :
    draw s opcode = .ok (advance
      { (spriteOffsets (s.VRegister (opX opcode)) (s.VRegister (opY opcode))
            s.IndexRegister s.memory (opcode &&& 0x000F)).foldl toggle (setV s 0xF 0) with
        Redraw := true } 2) := by
  unfold draw
  have h0 := foldl_drawRow (s.VRegister (opX opcode)) (s.VRegister (opY opcode))
    (setV s 0xF 0) (opcode &&& 0x000F) h
  simp only [] at h0 ⊢
  rw [h0]
  rfl

theorem EmulateCycle_draw {s : System} {X Y N : Nat} (random : Nat)
    (hop : fetch s = some (word 0xD X Y N)) (hX : X < 16) (hY : Y < 16) (hN : N < 16) :
    EmulateCycle s random = draw s (word 0xD X Y N) := by
  have hfam : word 0xD X Y N &&& 0xF000 = 0xD000 := word_family (by decide) hX hY hN
  simp only [EmulateCycle, hop, execute, hfam]

/-- C4. For X and Y other than F, a height N and an index register I with
I + N - 1 ≤ 4095, the draw DXYN returns normally; and a second DXYN executed on any
state that has the framebuffer the first draw left and the same VX, VY, I and sprite
bytes returns normally with the framebuffer exactly as it was before the first draw,
and with VF = 1 if the first draw turned at least one pixel from 0 to 1. -/
theorem draw_twice_restores (s : System) (random X Y N : Nat)
    (hX : X < 15) (hY : Y < 15) (hN : N < 16) (hI : s.IndexRegister + N - 1 ≤ 4095)
    (hop : fetch s = some (word 0xD X Y N)) :
    ∃ s1, EmulateCycle s random = .ok s1 ∧
      ∀ (t : System) (random1 : Nat), fetch t = some (word 0xD X Y N) →
        t.FrameBuffer = s1.FrameBuffer → t.VRegister X = s.VRegister X →
        t.VRegister Y = s.VRegister Y → t.IndexRegister = s.IndexRegister →
        (∀ r, r < N → t.memory (s.IndexRegister + r) = s.memory (s.IndexRegister + r)) →
        ∃ s2, EmulateCycle t random1 = .ok s2 ∧ s2.FrameBuffer = s.FrameBuffer ∧
          ((∃ k, s.FrameBuffer k = 0 ∧ s1.FrameBuffer k = 1) → s2.VRegister 0xF = 1) := by
  have hX16 : X < 16 := by omega
  have hY16 : Y < 16 := by omega
  have hlow : word 0xD X Y N &&& 0x000F = N := word_low 0xD X Y hN
  have hx : opX (word 0xD X Y N) = X := opX_word 0xD hX16 hY16 hN
  have hy : opY (word 0xD X Y N) = Y := opY_word 0xD X hY16 hN
  have hmod : ∀ r, r < N → (s.IndexRegister + r) % 65536 = s.IndexRegister + r :=
    fun r hr => Nat.mod_eq_of_lt (by omega)
  have hrows : ∀ r, r < word 0xD X Y N &&& 0x000F →
      (s.IndexRegister + r) % 65536 < memorySize := by
    intro r hr
    rw [hlow] at hr
    rw [hmod r hr]
    unfold memorySize
    omega
  rw [EmulateCycle_draw random hop hX16 hY16 hN, draw_eq s _ hrows, hlow, hx, hy]
  refine ⟨_, rfl, ?_⟩
  intro t random1 hopt hfb hvx hvy hit hmem
  have hrowst : ∀ r, r < word 0xD X Y N &&& 0x000F →
      (t.IndexRegister + r) % 65536 < memorySize := by
    rw [hit]
    exact hrows
  have hoff : spriteOffsets (s.VRegister X) (s.VRegister Y) s.IndexRegister t.memory N =
      spriteOffsets (s.VRegister X) (s.VRegister Y) s.IndexRegister s.memory N := by
    apply spriteOffsets_congr
    intro r hr
    rw [hmod r hr]
    exact hmem r hr
  rw [EmulateCycle_draw random1 hopt hX16 hY16 hN, draw_eq t _ hrowst, hlow, hx, hy,
    hvx, hvy, hit, hoff]
  refine ⟨_, rfl, ?_, ?_⟩
  · funext k
    have e1 := foldl_toggle_FrameBuffer
      (spriteOffsets (s.VRegister X) (s.VRegister Y) s.IndexRegister s.memory N) (setV t 0xF 0) k
    have e2 := foldl_toggle_FrameBuffer
      (spriteOffsets (s.VRegister X) (s.VRegister Y) s.IndexRegister s.memory N) (setV s 0xF 0) k
    have e3 : t.FrameBuffer k = (List.foldl toggle (setV s 0xF 0)
        (spriteOffsets (s.VRegister X) (s.VRegister Y) s.IndexRegister s.memory N)).FrameBuffer k := by
      rw [hfb]
      rfl
    show (List.foldl toggle (setV t 0xF 0)
      (spriteOffsets (s.VRegister X) (s.VRegister Y) s.IndexRegister s.memory N)).FrameBuffer k
        = s.FrameBuffer k
    rw [e1]
    show t.FrameBuffer k ^^^ _ = _
    rw [e3, e2]
    show (s.FrameBuffer k ^^^ _) ^^^ _ = _
    rw [Nat.xor_assoc, Nat.xor_self, Nat.xor_zero]
  · rintro ⟨k, hk0, hk1⟩
    have e2 := foldl_toggle_FrameBuffer
      (spriteOffsets (s.VRegister X) (s.VRegister Y) s.IndexRegister s.memory N) (setV s 0xF 0) k
    have hk1a : (List.foldl toggle (setV s 0xF 0)
        (spriteOffsets (s.VRegister X) (s.VRegister Y) s.IndexRegister s.memory N)).FrameBuffer k
          = 1 := hk1
    have hmemk : k ∈ spriteOffsets (s.VRegister X) (s.VRegister Y) s.IndexRegister s.memory N := by
      by_contra hnot
      rw [e2, List.count_eq_zero_of_not_mem hnot] at hk1a
      have : (setV s 0xF 0).FrameBuffer k = s.FrameBuffer k := rfl
      rw [this, hk0] at hk1a
      exact absurd hk1a (by decide)
    show (List.foldl toggle (setV t 0xF 0)
      (spriteOffsets (s.VRegister X) (s.VRegister Y) s.IndexRegister s.memory N)).VRegister 0xF = 1
    apply foldl_toggle_collision
    refine ⟨k, hmemk, ?_⟩
    show t.FrameBuffer k = 1
    rw [hfb]
    exact hk1

/-- C4, at a concrete input: the program D012 D012 with V0 = 3, V1 = 4 and I = 0x200
draws the rows 0xD0, 0x12 at (3, 4) twice; the second step restores the framebuffer and
ends with VF = 1. -/
theorem draw_twice_restores_witness :
    ∃ s1 s2, EmulateCycle drawTwiceMachine 0 = .ok s1 ∧ EmulateCycle s1 0 = .ok s2 ∧
      s2.FrameBuffer = drawTwiceMachine.FrameBuffer ∧ s2.VRegister 0xF = 1 := by
  obtain ⟨s1, h1, h2⟩ := draw_twice_restores drawTwiceMachine 0 0 1 2
    (by decide) (by decide) (by decide) (by decide) (by decide)
  have hs1 : s1 = (match EmulateCycle drawTwiceMachine 0 with
      | .ok r => r
      | _ => drawTwiceMachine) := by rw [h1]
  obtain ⟨s2, h3, h4, h5⟩ := h2 s1 0 (by rw [hs1]; decide) rfl (by rw [hs1]; decide)
    (by rw [hs1]; decide) (by rw [hs1]; decide) (by
      intro r hr
      rw [hs1]
      rfl)
  refine ⟨s1, s2, h1, h3, h4, h5 ⟨259, by decide, ?_⟩⟩
  rw [hs1]
  decide

/-! ## C5: bulk store and bulk load -/

/-- C5 fails on the code. The program A300 F355 6309 A300 F365 stores V0..V3 = 1, 2, 3, 7
at 0x300 (the index register ends at 0x304), sets V3 to 9 and loads with X = 3 from
0x300: the load restores V0..V2 and advances the index register to 0x304, but its loop
runs for i < X only, so V3 keeps the value 9 although memory byte 0x303 holds 7. -/
theorem bulk_load_skips_VX :
    ∃ s2 s5, run (fun _ => 0) roundTripMachine 2 = .ok s2 ∧
      s2.memory 0x300 = 1 ∧ s2.memory 0x301 = 2 ∧ s2.memory 0x302 = 3 ∧ s2.memory 0x303 = 7 ∧
      s2.IndexRegister = 0x304 ∧
      run (fun _ => 0) roundTripMachine 5 = .ok s5 ∧
      s5.VRegister 0 = 1 ∧ s5.VRegister 1 = 2 ∧ s5.VRegister 2 = 3 ∧ s5.IndexRegister = 0x304 ∧
      s5.memory 0x303 = 7 ∧ s5.VRegister 3 = 9 :=
  ⟨_, _, rfl, by decide, by decide, by decide, by decide, by decide, rfl,
    by decide, by decide, by decide, by decide, by decide, by decide⟩

/-! ## Call and return: one step -/

theorem fetch_bound {s : System} {opcode : Nat} (h : fetch s = some opcode) :
    s.ProgramCounter + 1 < 4096 := by
  unfold fetch memorySize at h
  split at h
  · omega
  · cases h

theorem EmulateCycle_call {s : System} {b c d : Nat} (random : Nat)
    (hb : b < 16) (hc : c < 16) (hd : d < 16)
    (hop : fetch s = some (word 2 b c d)) (hsp : s.StackPointer < 16) :
    EmulateCycle s random = .ok { s with
      Stack := Function.update s.Stack s.StackPointer s.ProgramCounter
      StackPointer := (s.StackPointer + 1) % 65536
      ProgramCounter := b * 256 + c * 16 + d } := by
  have hfam2 : word 2 b c d &&& 0xF000 = 0x2000 := word_family (by decide) hb hc hd
  have hnnn : word 2 b c d &&& 0x0FFF = b * 256 + c * 16 + d := word_NNN 2 hb hc hd
  simp only [EmulateCycle, hop, execute, hfam2, hnnn, hsp, if_true]

theorem EmulateCycle_return {s : System} (random : Nat)
    (hop : fetch s = some (word 0 0 0xE 0xE)) (h0 : 0 < s.StackPointer)
    (h16 : s.StackPointer ≤ 16) :
    EmulateCycle s random = .ok (advance { s with
      StackPointer := s.StackPointer - 1
      ProgramCounter := s.Stack (s.StackPointer - 1) } 2) := by
  have hfam0 : word 0 0 0xE 0xE &&& 0xF000 = 0x0000 := by decide
  have hlow0 : word 0 0 0xE 0xE &&& 0x000F = 0x000E := by decide
  have e : (s.StackPointer + 65535) % 65536 = s.StackPointer - 1 := by omega
  have hlt : s.StackPointer - 1 < 16 := by omega
  simp only [EmulateCycle, hop, execute, hfam0, hlow0, e, hlt, if_true]

/-! ## C8: key wait -/

theorem setV_setV (s : System) (x v w : Nat) : setV (setV s x v) x w = setV s x w := by
  simp [setV]

theorem foldl_keyWaitStep (s : System) (x n : Nat) :
    ((∀ k, k < n → s.KeyStates k = 0) ∧
      (List.range n).foldl (keyWaitStep x) (s, false) = (s, false)) ∨
    (∃ k, k < n ∧ s.KeyStates k ≠ 0 ∧
      (List.range n).foldl (keyWaitStep x) (s, false) = (setV s x k, true)) := by
  induction n with
  | zero =>
    left
    exact ⟨fun k hk => absurd hk (Nat.not_lt_zero k), rfl⟩
  | succ n ih =>
    rw [List.range_succ, List.foldl_append]
    by_cases hn : s.KeyStates n = 0
    · rcases ih with ⟨h0, e⟩ | ⟨k, hk, hk1, e⟩
      · left
        refine ⟨?_, ?_⟩
        · intro k hk
          rcases Nat.lt_succ_iff_lt_or_eq.mp hk with h | h
          · exact h0 k h
          · rw [h]; exact hn
        · rw [e]
          simp [keyWaitStep, hn]
      · right
        refine ⟨k, Nat.lt_succ_of_lt hk, hk1, ?_⟩
        rw [e]
        have : (setV s x k).KeyStates n = 0 := hn
        simp [keyWaitStep, this]
    · right
      refine ⟨n, Nat.lt_succ_self n, hn, ?_⟩
      rcases ih with ⟨_, e⟩ | ⟨k, _, _, e⟩
      · rw [e]
        simp [keyWaitStep, hn]
      · rw [e]
        have : (setV s x k).KeyStates n ≠ 0 := hn
        simp [keyWaitStep, this, setV_setV]

theorem updateTimers_VRegister (s : System) : (updateTimers s).VRegister = s.VRegister := by
  simp only [updateTimers]
  split_ifs <;> rfl

theorem updateTimers_ProgramCounter (s : System) :
    (updateTimers s).ProgramCounter = s.ProgramCounter := by
  simp only [updateTimers]
  split_ifs <;> rfl

/-- C8. Opcode FX0A: when all 16 key states are 0 the step returns no error and the
state after it is the state before it; when some key state is non-zero the step returns
no error, VX holds the index of a pressed key (the index of the one pressed key when
exactly one is pressed) and the program counter has advanced by exactly 2. -/
theorem key_wait (s : System) (random X : Nat) (hX : X < 16)
    (hop : fetch s = some (word 0xF X 0 0xA)) :
    ((∀ k, k < 16 → s.KeyStates k = 0) → EmulateCycle s random = .ok s) ∧
    ((∃ k, k < 16 ∧ s.KeyStates k ≠ 0) →
      ∃ s1, EmulateCycle s random = .ok s1 ∧
        s1.VRegister X < 16 ∧ s.KeyStates (s1.VRegister X) ≠ 0 ∧
        s1.ProgramCounter = s.ProgramCounter + 2 ∧
        ∀ k, k < 16 → s.KeyStates k ≠ 0 → (∀ j, j < 16 → j ≠ k → s.KeyStates j = 0) →
          s1.VRegister X = k) := by
  have hfam : word 0xF X 0 0xA &&& 0xF000 = 0xF000 :=
    word_family (by decide) hX (by decide) (by decide)
  have hnn : word 0xF X 0 0xA &&& 0x00FF = 0x000A := word_NN 0xF X (by decide) (by decide)
  have hx : opX (word 0xF X 0 0xA) = X := opX_word 0xF hX (by decide) (by decide)
  have hpc := fetch_bound hop
  have hstep : EmulateCycle s random =
      if (!((List.range 16).foldl (keyWaitStep X) (s, false)).2) = true then
        .ok ((List.range 16).foldl (keyWaitStep X) (s, false)).1
      else finishF (some (advance ((List.range 16).foldl (keyWaitStep X) (s, false)).1 2)) := by
    simp only [EmulateCycle, hop, execute, hfam, familyF, hnn, hx]
  rw [hstep]
  constructor
  · intro h0
    rcases foldl_keyWaitStep s X 16 with ⟨_, e⟩ | ⟨k, hk, hk1, _⟩
    · rw [e]
      rfl
    · exact absurd (h0 k hk) hk1
  · rintro ⟨k0, hk0, hk01⟩
    rcases foldl_keyWaitStep s X 16 with ⟨h0, _⟩ | ⟨k, hk, hk1, e⟩
    · exact absurd (h0 k0 hk0) hk01
    · rw [e]
      have hv : (updateTimers (advance (setV s X k) 2)).VRegister X = k := by
        rw [updateTimers_VRegister]
        simp [advance, setV]
      refine ⟨updateTimers (advance (setV s X k) 2), rfl, ?_, ?_, ?_, ?_⟩
      · rw [hv]; exact hk
      · rw [hv]; exact hk1
      · rw [updateTimers_ProgramCounter]
        show (s.ProgramCounter + 2) % 65536 = s.ProgramCounter + 2
        omega
      · intro j hj hj1 hall
        rw [hv]
        by_contra hne
        exact hk1 (hall k hk hne)

/-- C8, at concrete inputs: F30A with no key pressed returns the state it was given;
with key 7 pressed it stores 7 in V3 and moves the program counter from 0x200 to 0x202. -/
theorem key_wait_witness :
    EmulateCycle (machine [0xF3, 0x0A] []) 0 = .ok (machine [0xF3, 0x0A] []) ∧
    ∃ s1, EmulateCycle { machine [0xF3, 0x0A] [] with KeyStates := fun k => if k = 7 then 1 else 0 } 0
        = .ok s1 ∧ s1.VRegister 3 = 7 ∧ s1.ProgramCounter = 0x202 := by
  constructor
  · exact (key_wait (machine [0xF3, 0x0A] []) 0 3 (by decide) (by decide)).1 (fun _ _ => rfl)
  · obtain ⟨s1, h1, _, _, h4, h5⟩ :=
      (key_wait { machine [0xF3, 0x0A] [] with KeyStates := fun k => if k = 7 then 1 else 0 }
        0 3 (by decide) (by decide)).2 ⟨7, by decide, by decide⟩
    refine ⟨s1, h1, h5 7 (by decide) (by decide) ?_, h4⟩
    intro j _ hj
    show (if j = 7 then 1 else 0) = 0
    rw [if_neg hj]

/-! ## C9: a returned error leaves the state untouched -/

theorem finishF_ne_error (r : Option System) (s1 : System) (f o : Nat) :
    finishF r ≠ .error s1 f o := by
  cases r <;> simp [finishF]

theorem family8_error {s s1 : System} {opcode f o : Nat}
    (h : family8 s opcode = .error s1 f o) : s1 = s ∧ f = 0x8000 ∧ o = opcode := by
  unfold family8 at h
  split at h <;> first | (cases h; exact ⟨rfl, rfl, rfl⟩) | cases h

theorem familyE_error {s s1 : System} {opcode f o : Nat}
    (h : familyE s opcode = .error s1 f o) : s1 = s ∧ f = 0xE000 ∧ o = opcode := by
  unfold familyE at h
  split at h
  · split at h <;> cases h
  · split at h <;> cases h
  · cases h; exact ⟨rfl, rfl, rfl⟩

theorem familyF_error {s s1 : System} {opcode f o : Nat}
    (h : familyF s opcode = .error s1 f o) : s1 = s ∧ f = 0xF000 ∧ o = opcode := by
  unfold familyF at h
  split at h
  · exact absurd h (finishF_ne_error _ _ _ _)
  · dsimp only at h
    split at h
    · cases h
    · exact absurd h (finishF_ne_error _ _ _ _)
  · exact absurd h (finishF_ne_error _ _ _ _)
  · exact absurd h (finishF_ne_error _ _ _ _)
  · exact absurd h (finishF_ne_error _ _ _ _)
  · exact absurd h (finishF_ne_error _ _ _ _)
  · exact absurd h (finishF_ne_error _ _ _ _)
  · exact absurd h (finishF_ne_error _ _ _ _)
  · exact absurd h (finishF_ne_error _ _ _ _)
  · cases h; exact ⟨rfl, rfl, rfl⟩

theorem draw_ne_error (s s1 : System) (opcode f o : Nat) :
    draw s opcode ≠ .error s1 f o := by
  intro h
  simp only [draw] at h
  split at h <;> cases h

theorem execute_error {s s1 : System} {random opcode f o : Nat}
    (h : execute s random opcode = .error s1 f o) :
    s1 = s ∧ f = opcode &&& 0xF000 ∧ o = opcode := by
  unfold execute at h
  split at h
  · rename_i hfam
    split at h
    · cases h
    · dsimp only at h
      split at h <;> cases h
    · cases h; exact ⟨rfl, hfam.symm, rfl⟩
  · cases h
  · split at h <;> cases h
  · cases h
  · cases h
  · cases h
  · cases h
  · cases h
  · rename_i hfam
    obtain ⟨h1, h2, h3⟩ := family8_error h
    exact ⟨h1, h2.trans hfam.symm, h3⟩
  · cases h
  · cases h
  · cases h
  · cases h
  · exact absurd h (draw_ne_error _ _ _ _ _)
  · rename_i hfam
    obtain ⟨h1, h2, h3⟩ := familyE_error h
    exact ⟨h1, h2.trans hfam.symm, h3⟩
  · rename_i hfam
    obtain ⟨h1, h2, h3⟩ := familyF_error h
    exact ⟨h1, h2.trans hfam.symm, h3⟩
  · cases h

/-- C9. Whenever `EmulateCycle` returns an error, the state after the call is the state
before it: program counter, index register, stack pointer, stack, registers, both timers,
memory, framebuffer, redraw flag and key states.  The error names the fetched word and
its family. -/
theorem error_is_atomic (s : System) (random : Nat) (s1 : System) (family opcode : Nat)
    (h : EmulateCycle s random = .error s1 family opcode) :
    s1 = s ∧ fetch s = some opcode ∧ family = opcode &&& 0xF000 := by
  unfold EmulateCycle at h
  split at h
  · cases h
  · rename_i op hop
    obtain ⟨h1, h2, h3⟩ := execute_error h
    subst h3
    exact ⟨h1, hop, h2⟩

/-- C9, at a concrete input: the word 8008 has no case in family 8; the step returns the
error for 0x8008 and the state is the one it was given. -/
theorem error_is_atomic_witness :
    ∃ s1, EmulateCycle (machine [0x80, 0x08] [1, 2]) 0 = .error s1 0x8000 0x8008 ∧
      s1 = machine [0x80, 0x08] [1, 2] :=
  ⟨_, rfl, (error_is_atomic (machine [0x80, 0x08] [1, 2]) 0 _ 0x8000 0x8008 rfl).1⟩

/-! ## The program counter on the defined instructions -/

theorem foldl_none {f : Option System → Nat → Option System} (hnone : ∀ i, f none i = none)
    (l : List Nat) : l.foldl f none = none := by
  induction l with
  | nil => rfl
  | cons a l ih => rw [List.foldl_cons, hnone, ih]

theorem foldl_some_invariant {f : Option System → Nat → Option System} (P : System → Prop)
    (hnone : ∀ i, f none i = none)
    (hstep : ∀ s i t, f (some s) i = some t → P s → P t)
    (l : List Nat) (s t : System) (h : l.foldl f (some s) = some t) (hs : P s) : P t := by
  induction l generalizing s with
  | nil =>
    cases h
    exact hs
  | cons a l ih =>
    rw [List.foldl_cons] at h
    cases hfa : f (some s) a with
    | none =>
      rw [hfa, foldl_none hnone] at h
      cases h
    | some s2 =>
      rw [hfa] at h
      exact ih s2 h (hstep s a s2 hfa hs)

theorem drawRow_ProgramCounter (x y : Nat) (l : List Nat) (s t : System)
    (h : l.foldl (drawRow x y) (some s) = some t) : t.ProgramCounter = s.ProgramCounter := by
  refine foldl_some_invariant (fun u => u.ProgramCounter = s.ProgramCounter) (fun _ => rfl)
    ?_ l s t h rfl
  intro u i v huv hu
  unfold drawRow at huv
  dsimp only at huv
  split at huv
  · cases huv
    rw [foldl_drawBit, foldl_toggle_ProgramCounter]
    exact hu
  · cases huv

theorem storeStep_ProgramCounter (l : List Nat) (s t : System)
    (h : l.foldl storeStep (some s) = some t) : t.ProgramCounter = s.ProgramCounter := by
  refine foldl_some_invariant (fun u => u.ProgramCounter = s.ProgramCounter) (fun _ => rfl)
    ?_ l s t h rfl
  intro u i v huv hu
  unfold storeStep at huv
  dsimp only at huv
  split at huv
  · cases huv
    exact hu
  · cases huv

theorem loadStep_ProgramCounter (l : List Nat) (s t : System)
    (h : l.foldl loadStep (some s) = some t) : t.ProgramCounter = s.ProgramCounter := by
  refine foldl_some_invariant (fun u => u.ProgramCounter = s.ProgramCounter) (fun _ => rfl)
    ?_ l s t h rfl
  intro u i v huv hu
  unfold loadStep at huv
  dsimp only at huv
  split at huv
  · cases huv
    exact hu
  · cases huv

theorem storeBCD_ProgramCounter (s t : System) (v : Nat) (h : storeBCD s v = some t) :
    t.ProgramCounter = s.ProgramCounter := by
  unfold storeBCD at h
  dsimp only at h
  split at h
  · split at h
    · split at h
      · cases h
        rfl
      · cases h
    · cases h
  · cases h

theorem finishF_ok {r : Option System} {s1 : System} (h : finishF r = .ok s1) :
    ∃ t, r = some t ∧ s1 = updateTimers t := by
  cases r with
  | none => cases h
  | some t =>
    cases h
    exact ⟨t, rfl, rfl⟩

theorem finishF_map_ProgramCounter {r : Option System} {g : System → System} {s1 : System}
    (h : finishF (r.map g) = .ok s1) : ∃ t, r = some t ∧ s1.ProgramCounter = (g t).ProgramCounter := by
  obtain ⟨t, ht, hs1⟩ := finishF_ok h
  cases r with
  | none => cases ht
  | some u =>
    cases ht
    exact ⟨u, rfl, by rw [hs1, updateTimers_ProgramCounter]⟩

theorem family8_ProgramCounter {s s1 : System} {opcode : Nat} (h : family8 s opcode = .ok s1) :
    s1.ProgramCounter = (s.ProgramCounter + 2) % 65536 := by
  unfold family8 at h
  dsimp only at h
  split at h
  all_goals first
    | (cases h; rfl)
    | (cases h; simp [advance, setV, apply_ite System.ProgramCounter])
    | cases h

theorem draw_ProgramCounter {s s1 : System} {opcode : Nat} (h : draw s opcode = .ok s1) :
    s1.ProgramCounter = (s.ProgramCounter + 2) % 65536 := by
  simp only [draw] at h
  split at h
  · cases h
  · rename_i t ht
    cases h
    have := drawRow_ProgramCounter _ _ _ _ _ ht
    show (t.ProgramCounter + 2) % 65536 = _
    rw [this]
    rfl

theorem familyF_ProgramCounter {s s1 : System} {opcode : Nat} (h : familyF s opcode = .ok s1)
    (hne : opcode &&& 0x00FF ≠ 0x000A) :
    s1.ProgramCounter = (s.ProgramCounter + 2) % 65536 := by
  unfold familyF at h
  dsimp only at h
  split at h
  · obtain ⟨t, ht, hs1⟩ := finishF_ok h
    cases ht
    rw [hs1, updateTimers_ProgramCounter]
    rfl
  · rename_i heq
    exact absurd heq hne
  · obtain ⟨t, ht, hs1⟩ := finishF_ok h
    cases ht
    rw [hs1, updateTimers_ProgramCounter]
    rfl
  · obtain ⟨t, ht, hs1⟩ := finishF_ok h
    cases ht
    rw [hs1, updateTimers_ProgramCounter]
    rfl
  · obtain ⟨t, ht, hs1⟩ := finishF_ok h
    cases ht
    rw [hs1, updateTimers_ProgramCounter]
    simp [advance, setV, apply_ite System.ProgramCounter]
  · obtain ⟨t, ht, hs1⟩ := finishF_ok h
    cases ht
    rw [hs1, updateTimers_ProgramCounter]
    rfl
  · obtain ⟨t, ht, hs1⟩ := finishF_map_ProgramCounter h
    rw [hs1]
    show (t.ProgramCounter + 2) % 65536 = _
    rw [storeBCD_ProgramCounter _ _ _ ht]
  · obtain ⟨t, ht, hs1⟩ := finishF_map_ProgramCounter h
    rw [hs1]
    show (t.ProgramCounter + 2) % 65536 = _
    rw [storeStep_ProgramCounter _ _ _ ht]
  · obtain ⟨t, ht, hs1⟩ := finishF_map_ProgramCounter h
    rw [hs1]
    show (t.ProgramCounter + 2) % 65536 = _
    rw [loadStep_ProgramCounter _ _ _ ht]
  · cases h

theorem skipIf_ProgramCounter (s : System) (c : Bool) (h : s.ProgramCounter + 1 < 4096) :
    (skipIf s c).ProgramCounter = if c then s.ProgramCounter + 4 else s.ProgramCounter + 2 := by
  unfold skipIf advance
  cases c
  · show (s.ProgramCounter + 2) % 65536 = s.ProgramCounter + 2
    omega
  · show (s.ProgramCounter + 4) % 65536 = s.ProgramCounter + 4
    omega

/-- The program counter after a successful step on a word `a b c d` that is an
instance of a defined pattern: NNN for 1NNN, NNN + V0 (mod 2^16) for BNNN, PC + 4 for a
taken skip, and PC + 2 for an untaken skip, for a key wait that found a key and for
every other defined instruction except call and return. -/
theorem program_counter_rule (s s1 : System) (random a b c d : Nat)
    (hb : b < 16) (hc : c < 16) (hd : d < 16)
    (hop : fetch s = some (word a b c d)) (h : EmulateCycle s random = .ok s1) :
    (a = 1 → s1.ProgramCounter = b * 256 + c * 16 + d) ∧
    (a = 0xB → s1.ProgramCounter = (b * 256 + c * 16 + d + s.VRegister 0) % 65536) ∧
    (a = 3 → s1.ProgramCounter =
      if s.VRegister b = c * 16 + d then s.ProgramCounter + 4 else s.ProgramCounter + 2) ∧
    (a = 4 → s1.ProgramCounter =
      if s.VRegister b ≠ c * 16 + d then s.ProgramCounter + 4 else s.ProgramCounter + 2) ∧
    (a = 5 → d = 0 → s1.ProgramCounter =
      if s.VRegister b = s.VRegister c then s.ProgramCounter + 4 else s.ProgramCounter + 2) ∧
    (a = 9 → d = 0 → s1.ProgramCounter =
      if s.VRegister b ≠ s.VRegister c then s.ProgramCounter + 4 else s.ProgramCounter + 2) ∧
    (a = 0xE → c = 9 → d = 0xE → s1.ProgramCounter =
      if s.KeyStates (s.VRegister b) ≠ 0 then s.ProgramCounter + 4 else s.ProgramCounter + 2) ∧
    (a = 0xE → c = 0xA → d = 1 → s1.ProgramCounter =
      if s.KeyStates (s.VRegister b) = 0 then s.ProgramCounter + 4 else s.ProgramCounter + 2) ∧
    (a = 0xF → c = 0 → d = 0xA → (∃ k, k < 16 ∧ s.KeyStates k ≠ 0) →
      s1.ProgramCounter = s.ProgramCounter + 2) ∧
    ((a = 0 ∧ b = 0 ∧ c = 0xE ∧ d = 0) ∨ a = 6 ∨ a = 7 ∨ a = 8 ∨ a = 0xA ∨ a = 0xC ∨ a = 0xD ∨
        (a = 0xF ∧ ¬ (c = 0 ∧ d = 0xA)) →
      s1.ProgramCounter = s.ProgramCounter + 2) := by
  have hpc := fetch_bound hop
  have hpc2 : (s.ProgramCounter + 2) % 65536 = s.ProgramCounter + 2 := by omega
  have hx : opX (word a b c d) = b := opX_word a hb hc hd
  have hy : opY (word a b c d) = c := opY_word a b hc hd
  have hnn : word a b c d &&& 0x00FF = c * 16 + d := word_NN a b hc hd
  have hnnn : word a b c d &&& 0x0FFF = b * 256 + c * 16 + d := word_NNN a hb hc hd
  have hlow : word a b c d &&& 0x000F = d := word_low a b c hd
  have hfam : ∀ n, n < 16 → a = n → word a b c d &&& 0xF000 = n * 4096 := by
    intro n hn e
    subst e
    exact word_family hn hb hc hd
  simp only [EmulateCycle, hop] at h
  refine ⟨?_, ?_, ?_, ?_, ?_, ?_, ?_, ?_, ?_, ?_⟩
  · intro ha
    simp only [execute, hfam 1 (by decide) ha, hnnn] at h
    cases h
    rfl
  · intro ha
    simp only [execute, hfam 0xB (by decide) ha, hnnn] at h
    cases h
    rfl
  · intro ha
    simp only [execute, hfam 3 (by decide) ha, hnn, hx] at h
    cases h
    rw [skipIf_ProgramCounter _ _ hpc]
    simp
  · intro ha
    simp only [execute, hfam 4 (by decide) ha, hnn, hx] at h
    cases h
    rw [skipIf_ProgramCounter _ _ hpc]
    simp
  · intro ha _
    simp only [execute, hfam 5 (by decide) ha, hx, hy] at h
    cases h
    rw [skipIf_ProgramCounter _ _ hpc]
    simp
  · intro ha _
    simp only [execute, hfam 9 (by decide) ha, hx, hy] at h
    cases h
    rw [skipIf_ProgramCounter _ _ hpc]
    simp
  · intro ha hc9 hdE
    subst hc9 hdE
    simp only [execute, hfam 0xE (by decide) ha, familyE, hnn, hx] at h
    split at h
    · cases h
      rw [skipIf_ProgramCounter _ _ hpc]
      simp
    · cases h
  · intro ha hcA hd1
    subst hcA hd1
    simp only [execute, hfam 0xE (by decide) ha, familyE, hnn, hx] at h
    split at h
    · cases h
      rw [skipIf_ProgramCounter _ _ hpc]
      simp
    · cases h
  · intro ha hc0 hdA hkey
    subst ha hc0 hdA
    obtain ⟨s2, h2, _, _, h5, _⟩ := (key_wait s random b hb hop).2 hkey
    simp only [EmulateCycle, hop] at h2
    rw [h] at h2
    cases h2
    exact h5
  · intro hcase
    rw [← hpc2]
    rcases hcase with ⟨ha, hb0, hcE, hd0⟩ | ha | ha | ha | ha | ha | ha | ⟨ha, hne⟩
    · subst hb0 hcE hd0
      simp only [execute, hfam 0 (by decide) ha, hlow] at h
      cases h
      simp only [advance, clearScreen]
    · simp only [execute, hfam 6 (by decide) ha] at h
      cases h
      rfl
    · simp only [execute, hfam 7 (by decide) ha] at h
      cases h
      rfl
    · simp only [execute, hfam 8 (by decide) ha] at h
      exact family8_ProgramCounter h
    · simp only [execute, hfam 0xA (by decide) ha] at h
      cases h
      rfl
    · simp only [execute, hfam 0xC (by decide) ha] at h
      cases h
      rfl
    · simp only [execute, hfam 0xD (by decide) ha] at h
      exact draw_ProgramCounter h
    · simp only [execute, hfam 0xF (by decide) ha] at h
      apply familyF_ProgramCounter h
      rw [hnn]
      omega

/-! ## The bulk load on every state -/

theorem foldl_loadStep (s : System) (n : Nat)
    (h : ∀ i, i < n → (s.IndexRegister + i) % 65536 < memorySize) :
    (List.range n).foldl loadStep (some s) =
      some { s with VRegister := fun i =>
        if i < n then s.memory ((s.IndexRegister + i) % 65536) else s.VRegister i } := by
  induction n with
  | zero => rfl
  | succ n ih =>
    rw [List.range_succ, List.foldl_append, ih (fun i hi => h i (Nat.lt_succ_of_lt hi))]
    simp only [List.foldl_cons, List.foldl_nil, loadStep, h n (Nat.lt_succ_self n), if_true,
      setV]
    congr 2
    funext i
    by_cases hi : i = n
    · subst hi
      simp
    · rw [Function.update_noteq hi]
      by_cases hlt : i < n
      · simp [hlt, Nat.lt_succ_of_lt hlt]
      · have : ¬ i < n + 1 := by omega
        simp [hlt, this]

/-- The bulk load FX65 on every state with I + X ≤ 4095: the step returns normally, the
registers V0..V(X-1) receive memory[I], ..., memory[I+X-1], every register from VX on
(VX included) keeps its value, and the index register ends at I + X + 1. -/
theorem bulk_load_effect (s : System) (random X : Nat) (hX : X < 16)
    (hI : s.IndexRegister + X ≤ 4095) (hop : fetch s = some (word 0xF X 6 5)) :
    ∃ s1, EmulateCycle s random = .ok s1 ∧
      (∀ i, i < X → s1.VRegister i = s.memory (s.IndexRegister + i)) ∧
      (∀ i, X ≤ i → s1.VRegister i = s.VRegister i) ∧
      s1.IndexRegister = s.IndexRegister + X + 1 := by
  have hfam : word 0xF X 6 5 &&& 0xF000 = 0xF000 :=
    word_family (by decide) hX (by decide) (by decide)
  have hnn : word 0xF X 6 5 &&& 0x00FF = 0x0065 := word_NN 0xF X (by decide) (by decide)
  have hx : opX (word 0xF X 6 5) = X := opX_word 0xF hX (by decide) (by decide)
  have hmod : ∀ i, i < X → (s.IndexRegister + i) % 65536 = s.IndexRegister + i :=
    fun i hi => Nat.mod_eq_of_lt (by omega)
  have hrows : ∀ i, i < X → (s.IndexRegister + i) % 65536 < memorySize := by
    intro i hi
    rw [hmod i hi]
    unfold memorySize
    omega
  simp only [EmulateCycle, hop, execute, hfam, familyF, hnn, hx, foldl_loadStep s X hrows,
    Option.map_some', finishF]
  refine ⟨_, rfl, ?_, ?_, ?_⟩
  · intro i hi
    rw [updateTimers_VRegister]
    show (if i < X then s.memory ((s.IndexRegister + i) % 65536) else s.VRegister i) = _
    rw [if_pos hi, hmod i hi]
  · intro i hi
    rw [updateTimers_VRegister]
    show (if i < X then s.memory ((s.IndexRegister + i) % 65536) else s.VRegister i) = _
    rw [if_neg (by omega)]
  · have e : ∀ t : System, (updateTimers t).IndexRegister = t.IndexRegister := by
      intro t
      simp only [updateTimers]
      split_ifs <;> rfl
    rw [e]
    show (s.IndexRegister + (X + 1)) % 65536 = s.IndexRegister + X + 1
    omega

/-! ## Which words are rejected -/

theorem family8_error_iff (s : System) (opcode : Nat) :
    (∃ s1 f o, family8 s opcode = .error s1 f o) ↔
      7 < opcode &&& 0x000F ∧ opcode &&& 0x000F ≠ 0xE := by
  unfold family8
  dsimp only
  split
  all_goals first
    | (rename_i heq
       constructor
       · rintro ⟨s1, f, o, h⟩
         cases h
       · intro hc
         omega)
    | (rename_i h0 h1 h2 h3 h4 h5 h6 h7 hE
       have k0 : opcode &&& 0x000F ≠ 0 := h0
       have k1 : opcode &&& 0x000F ≠ 1 := h1
       have k2 : opcode &&& 0x000F ≠ 2 := h2
       have k3 : opcode &&& 0x000F ≠ 3 := h3
       have k4 : opcode &&& 0x000F ≠ 4 := h4
       have k5 : opcode &&& 0x000F ≠ 5 := h5
       have k6 : opcode &&& 0x000F ≠ 6 := h6
       have k7 : opcode &&& 0x000F ≠ 7 := h7
       have kE : opcode &&& 0x000F ≠ 0xE := hE
       constructor
       · intro _
         omega
       · intro _
         exact ⟨_, _, _, rfl⟩)

theorem familyE_error_iff (s : System) (opcode : Nat) :
    (∃ s1 f o, familyE s opcode = .error s1 f o) ↔
      opcode &&& 0x00FF ≠ 0x9E ∧ opcode &&& 0x00FF ≠ 0xA1 := by
  unfold familyE
  split
  · rename_i heq
    constructor
    · rintro ⟨s1, f, o, h⟩
      split at h <;> cases h
    · intro hc
      omega
  · rename_i heq
    constructor
    · rintro ⟨s1, f, o, h⟩
      split at h <;> cases h
    · intro hc
      omega
  · rename_i h1 h2
    constructor
    · intro _
      exact ⟨h1, h2⟩
    · intro _
      exact ⟨_, _, _, rfl⟩

theorem familyF_error_iff (s : System) (opcode : Nat) :
    (∃ s1 f o, familyF s opcode = .error s1 f o) ↔
      opcode &&& 0x00FF ∉ [0x07, 0x0A, 0x15, 0x18, 0x1E, 0x29, 0x33, 0x55, 0x65] := by
  constructor
  · rintro ⟨s1, f, o, h⟩
    unfold familyF at h
    dsimp only at h
    split at h
    · exact absurd h (finishF_ne_error _ _ _ _)
    · split at h
      · cases h
      · exact absurd h (finishF_ne_error _ _ _ _)
    · exact absurd h (finishF_ne_error _ _ _ _)
    · exact absurd h (finishF_ne_error _ _ _ _)
    · exact absurd h (finishF_ne_error _ _ _ _)
    · exact absurd h (finishF_ne_error _ _ _ _)
    · exact absurd h (finishF_ne_error _ _ _ _)
    · exact absurd h (finishF_ne_error _ _ _ _)
    · exact absurd h (finishF_ne_error _ _ _ _)
    · rename_i h1 h2 h3 h4 h5 h6 h7 h8 h9
      simp only [List.mem_cons, List.mem_singleton, List.not_mem_nil, or_false, not_or]
      exact ⟨h1, h2, h3, h4, h5, h6, h7, h8, h9⟩
  · intro hc
    simp only [List.mem_cons, List.mem_singleton, List.not_mem_nil, or_false, not_or] at hc
    obtain ⟨h1, h2, h3, h4, h5, h6, h7, h8, h9⟩ := hc
    refine ⟨s, 0xF000, opcode, ?_⟩
    unfold familyF
    dsimp only
    split
    all_goals first
      | contradiction
      | rfl

/-- The words `EmulateCycle` rejects, for every state whose fetch succeeds: an error is
returned exactly for family 0 with a low nibble other than 0 and E, family 8 with a low
nibble other than 0..7 and E, family E with a low byte other than 9E and A1, and family F
with a low byte other than 07, 0A, 15, 18, 1E, 29, 33, 55 and 65. -/
theorem error_exactly (s : System) (random opcode : Nat) (hop : fetch s = some opcode) :
    (∃ s1 f o, EmulateCycle s random = .error s1 f o) ↔
      (opcode &&& 0xF000 = 0x0000 ∧ opcode &&& 0x000F ≠ 0x0 ∧ opcode &&& 0x000F ≠ 0xE) ∨
      (opcode &&& 0xF000 = 0x8000 ∧ 7 < opcode &&& 0x000F ∧ opcode &&& 0x000F ≠ 0xE) ∨
      (opcode &&& 0xF000 = 0xE000 ∧ opcode &&& 0x00FF ≠ 0x9E ∧ opcode &&& 0x00FF ≠ 0xA1) ∨
      (opcode &&& 0xF000 = 0xF000 ∧
        opcode &&& 0x00FF ∉ [0x07, 0x0A, 0x15, 0x18, 0x1E, 0x29, 0x33, 0x55, 0x65]) := by
  simp only [EmulateCycle, hop]
  unfold execute
  split
  · rename_i hfam
    split
    · rename_i hlow
      constructor
      · rintro ⟨s1, f, o, h⟩
        cases h
      · rintro (⟨_, h, _⟩ | ⟨h, _⟩ | ⟨h, _⟩ | ⟨h, _⟩) <;> omega
    · rename_i hlow
      constructor
      · rintro ⟨s1, f, o, h⟩
        dsimp only at h
        split at h <;> cases h
      · rintro (⟨_, _, h⟩ | ⟨h, _⟩ | ⟨h, _⟩ | ⟨h, _⟩) <;> omega
    · rename_i h0 hE
      constructor
      · intro _
        left
        exact ⟨hfam, h0, hE⟩
      · intro _
        exact ⟨_, _, _, rfl⟩
  case h_9 =>
    rename_i hfam
    rw [family8_error_iff]
    constructor
    · intro h
      right; left
      exact ⟨hfam, h⟩
    · rintro (⟨h, _⟩ | hc | ⟨h, _⟩ | ⟨h, _⟩)
      · omega
      · exact hc.2
      · omega
      · omega
  case h_15 =>
    rename_i hfam
    rw [familyE_error_iff]
    constructor
    · intro h
      right; right; left
      exact ⟨hfam, h⟩
    · rintro (⟨h, _⟩ | ⟨h, _⟩ | hc | ⟨h, _⟩)
      · omega
      · omega
      · exact hc.2
      · omega
  case h_16 =>
    rename_i hfam
    rw [familyF_error_iff]
    constructor
    · intro h
      right; right; right
      exact ⟨hfam, h⟩
    · rintro (⟨h, _⟩ | ⟨h, _⟩ | ⟨h, _⟩ | hc)
      · omega
      · omega
      · omega
      · exact hc.2
  case h_14 =>
    rename_i hfam
    constructor
    · rintro ⟨s1, f, o, h⟩
      exact absurd h (draw_ne_error _ _ _ _ _)
    · rintro (⟨h, _⟩ | ⟨h, _⟩ | ⟨h, _⟩ | ⟨h, _⟩) <;> omega
  all_goals
    constructor
    · rintro ⟨s1, f, o, h⟩
      first
        | cases h
        | (split at h <;> cases h)
    · rintro (⟨h, _⟩ | ⟨h, _⟩ | ⟨h, _⟩ | ⟨h, _⟩) <;> first | omega | contradiction

/-! ## C6 and C10: words outside the instruction set -/

/-- C6 fails on the code. The word 5121 is no instance of 5XY0, yet it is executed as the
skip: with V1 = V2 the program counter moves from 0x200 to 0x204.  The word 9121 with
V1 ≠ V2 does the same, and 00FE is executed as a return (PC becomes Stack[0] + 2). -/
theorem non_instruction_moves_pc :
    (∃ s1, EmulateCycle (machine [0x51, 0x21] [0, 7, 7]) 0 = .ok s1 ∧
      s1.ProgramCounter = 0x204) ∧
    (∃ s1, EmulateCycle (machine [0x91, 0x21] [0, 7, 8]) 0 = .ok s1 ∧
      s1.ProgramCounter = 0x204) ∧
    (∃ s1, EmulateCycle { machine [0x00, 0xFE] [] with
        StackPointer := 1, Stack := fun _ => 0x300 } 0 = .ok s1 ∧
      s1.ProgramCounter = 0x302) :=
  ⟨⟨_, rfl, by decide⟩, ⟨_, rfl, by decide⟩, ⟨_, rfl, by decide⟩⟩

/-- C10 fails on the code. None of the words 5121, 9121, 0000, 0120 and 00FE is an
instance of a defined pattern, and on each of them `EmulateCycle` returns no error:
5121 and 9121 run as the skips 5XY0 and 9XY0, 0000 and 0120 clear the screen, and 00FE
returns from a subroutine. -/
theorem unknown_word_not_surfaced :
    (∃ s1, EmulateCycle (machine [0x51, 0x21] []) 0 = .ok s1) ∧
    (∃ s1, EmulateCycle (machine [0x91, 0x21] []) 0 = .ok s1) ∧
    EmulateCycle (machine [0x00, 0x00] []) 0 = .ok (advance (clearScreen (machine [0x00, 0x00] [])) 2) ∧
    EmulateCycle (machine [0x01, 0x20] []) 0 = .ok (advance (clearScreen (machine [0x01, 0x20] [])) 2) ∧
    (∃ s1, EmulateCycle { machine [0x00, 0xFE] [] with StackPointer := 1 } 0 = .ok s1) :=
  ⟨⟨_, rfl⟩, ⟨_, rfl⟩, rfl, rfl, ⟨_, rfl⟩⟩

/-! ## C11: loading a ROM -/

theorem foldl_copy (buffer : List Nat) (mem : Nat → Nat) (n a : Nat) :
    (List.range n).foldl (fun m i => Function.update m (i + 512) (buffer.getD i 0)) mem a =
      if 512 ≤ a ∧ a < 512 + n then buffer.getD (a - 512) 0 else mem a := by
  induction n with
  | zero =>
    have : ¬ (512 ≤ a ∧ a < 512 + 0) := by omega
    simp [this]
  | succ n ih =>
    rw [List.range_succ, List.foldl_append, List.foldl_cons, List.foldl_nil]
    by_cases ha : a = n + 512
    · subst ha
      have : 512 ≤ n + 512 ∧ n + 512 < 512 + (n + 1) := by omega
      rw [Function.update_same, if_pos this, Nat.add_sub_cancel]
    · rw [Function.update_noteq ha, ih]
      by_cases h1 : 512 ≤ a ∧ a < 512 + n
      · have : 512 ≤ a ∧ a < 512 + (n + 1) := by omega
        rw [if_pos h1, if_pos this]
      · have : ¬ (512 ≤ a ∧ a < 512 + (n + 1)) := by omega
        rw [if_neg h1, if_neg this]

/-- The effect of `LoadRom` on every buffer: a buffer shorter than 3584 bytes is
accepted, byte i lands at 0x200 + i, every other memory byte and every other component
is as before; a buffer of 3584 bytes or more is refused and the state is untouched. -/
theorem LoadRom_effect (s : System) (buffer : List Nat) :
    (buffer.length < 3584 →
      ∃ s1, LoadRom s buffer = .ok s1 ∧
        (∀ i, i < buffer.length → s1.memory (0x200 + i) = buffer.getD i 0) ∧
        (∀ a, a < 0x200 ∨ 0x200 + buffer.length ≤ a → s1.memory a = s.memory a) ∧
        s1 = { s with memory := s1.memory }) ∧
    (3584 ≤ buffer.length → LoadRom s buffer = .tooBig s) := by
  constructor
  · intro h
    have hlt : 4096 - 512 > buffer.length := by omega
    refine ⟨_, if_pos hlt, ?_, ?_, rfl⟩
    · intro i hi
      have e := foldl_copy buffer s.memory buffer.length (0x200 + i)
      rw [if_pos (by omega)] at e
      have e2 : 0x200 + i - 512 = i := by omega
      rw [e2] at e
      exact e
    · intro a ha
      have e := foldl_copy buffer s.memory buffer.length a
      rw [if_neg (by omega)] at e
      exact e
  · intro h
    have hlt : ¬ (4096 - 512 > buffer.length) := by omega
    exact if_neg hlt

/-- C11 fails on the code. A ROM of exactly 3584 bytes fills 0x200..0xFFF and does not
exceed 3584, yet `LoadRom` refuses it with the size error: its guard is
`(4096 - 512) > lSize`.  The 3-byte ROM 12 34 56 lands at 0x200, 0x201, 0x202 and a ROM
of 4000 bytes is refused, as claimed. -/
theorem load_rom_refuses_exact_fit :
    (List.replicate 3584 0x00).length = 3584 ∧
    LoadRom (New (fun _ => 0) 0) (List.replicate 3584 0x00) = .tooBig (New (fun _ => 0) 0) ∧
    (∃ s1, LoadRom (New (fun _ => 0) 0) [0x12, 0x34, 0x56] = .ok s1 ∧
      s1.memory 0x200 = 0x12 ∧ s1.memory 0x201 = 0x34 ∧ s1.memory 0x202 = 0x56) ∧
    LoadRom (New (fun _ => 0) 0) (List.replicate 4000 0x00) = .tooBig (New (fun _ => 0) 0) := by
  refine ⟨List.length_replicate _ _, ?_, ⟨_, rfl, by decide, by decide, by decide⟩, ?_⟩
  · exact if_neg (by rw [List.length_replicate]; decide)
  · exact if_neg (by rw [List.length_replicate]; decide)

/-! ## C12: setting a key state -/

/-- The effect of `SetKeyState` on every input: neither error is ever returned (both
guards are conjunctions that no value satisfies); an index in 0..15 sets that key state
and nothing else, and an index outside 0..15 reaches `KeyStates[keyindex]` and panics. -/
theorem SetKeyState_effect (s : System) (keyindex : Int) (value : Nat) :
    (0 ≤ keyindex ∧ keyindex < 16 →
      ∃ s1, SetKeyState s keyindex value = .ok s1 ∧
        s1.KeyStates keyindex.toNat = value ∧
        (∀ k, k ≠ keyindex.toNat → s1.KeyStates k = s.KeyStates k) ∧
        s1 = { s with KeyStates := s1.KeyStates }) ∧
    (¬ (0 ≤ keyindex ∧ keyindex < 16) → SetKeyState s keyindex value = .panic) := by
  have h1 : ¬ (keyindex < 0 ∧ keyindex > 16) := by omega
  have h2 : ¬ (value < 0 ∧ value > 1) := by omega
  constructor
  · intro h
    refine ⟨{ s with KeyStates := Function.update s.KeyStates keyindex.toNat value }, ?_, ?_, ?_, rfl⟩
    · simp only [SetKeyState, if_neg h1, if_neg h2, if_pos h]
    · simp
    · intro k hk
      simp [Function.update_apply, hk]
  · intro h
    simp only [SetKeyState, if_neg h1, if_neg h2, if_neg h]

/-- C12 fails on the code. The indices 16, -1 and 100 are outside 0..15; `SetKeyState`
returns no invalid-key error for them but runs into `KeyStates[keyindex]`, which is out
of range, and panics. -/
theorem set_key_state_out_of_range :
    SetKeyState (New (fun _ => 0) 0) 16 1 = .panic ∧
    SetKeyState (New (fun _ => 0) 0) (-1) 1 = .panic ∧
    SetKeyState (New (fun _ => 0) 0) 100 0 = .panic :=
  ⟨rfl, rfl, rfl⟩

/-! ## Family F: index register and memory transfers -/

theorem EmulateCycle_familyF {s : System} {X c d : Nat} (random : Nat)
    (hop : fetch s = some (word 0xF X c d)) (hX : X < 16) (hc : c < 16) (hd : d < 16) :
    EmulateCycle s random = familyF s (word 0xF X c d) := by
  have hfam : word 0xF X c d &&& 0xF000 = 0xF000 := word_family (by decide) hX hc hd
  simp only [EmulateCycle, hop, execute, hfam]

theorem updateTimers_IndexRegister (s : System) :
    (updateTimers s).IndexRegister = s.IndexRegister := by
  simp only [updateTimers]
  split_ifs <;> rfl

theorem updateTimers_memory (s : System) : (updateTimers s).memory = s.memory := by
  simp only [updateTimers]
  split_ifs <;> rfl

theorem updateTimers_FrameBuffer (s : System) :
    (updateTimers s).FrameBuffer = s.FrameBuffer := by
  simp only [updateTimers]
  split_ifs <;> rfl

/-! ## C14: add to index -/

/-- C15 as stated fails for a value above 0x0F: with V0 = 0x10, F029 sets the index
register to 0x10 * 5 = 80, not to (0x10 AND 0x0F) * 5 = 0; 80 is no glyph address. -/
theorem font_address_counterexample :
    (0x10 &&& 0x0F) * 5 = 0 ∧
    ∃ s1, EmulateCycle (machine [0xF0, 0x29] [0x10]) 0 = .ok s1 ∧ s1.IndexRegister = 80 :=
  ⟨by decide, _, rfl, by decide⟩

/-- C15, amended. For every value v of VX in 0..255, FX29 sets the index register to
5 * v (no mask is applied); for v in 0..15 this is (v AND 0x0F) * 5, one of the glyph
addresses 0, 5, ..., 75. -/
theorem font_address (s : System) (random X : Nat) (hs : s.WellTyped) (hX : X < 16)
    (hop : fetch s = some (word 0xF X 2 9)) :
    ∃ s1, EmulateCycle s random = .ok s1 ∧ s1.IndexRegister = 5 * s.VRegister X ∧
      (s.VRegister X < 16 →
        s1.IndexRegister = (s.VRegister X &&& 0x0F) * 5 ∧ s1.IndexRegister ≤ 75 ∧
        s1.IndexRegister % 5 = 0) := by
  have hnn : word 0xF X 2 9 &&& 0x00FF = 0x0029 := word_NN 0xF X (by decide) (by decide)
  have hx : opX (word 0xF X 2 9) = X := opX_word 0xF hX (by decide) (by decide)
  have hv : s.VRegister X < 256 := hs.2.2.2.1 X hX
  rw [EmulateCycle_familyF random hop hX (by decide) (by decide)]
  simp only [familyF, hnn, hx, finishF]
  have e : (updateTimers (advance { s with IndexRegister := (s.VRegister X * 0x5) % 65536 } 2)).IndexRegister
      = 5 * s.VRegister X := by
    rw [updateTimers_IndexRegister]
    show (s.VRegister X * 0x5) % 65536 = 5 * s.VRegister X
    omega
  refine ⟨_, rfl, e, ?_⟩
  intro h16
  rw [e, and_000F, Nat.mod_eq_of_lt h16]
  omega

/-- C15 amended, at a concrete input: F029 with V0 = 0x0A sets the index register to 50. -/
theorem font_address_witness :
    ∃ s1, EmulateCycle (machine [0xF0, 0x29] [0x0A]) 0 = .ok s1 ∧ s1.IndexRegister = 50 := by
  obtain ⟨s1, h1, h2, _⟩ := font_address (machine [0xF0, 0x29] [0x0A]) 0 0
    (machine_wellTyped (by decide) (by decide)) (by decide) (by decide)
  exact ⟨s1, h1, h2⟩

/-! ## C16: BCD store -/

/-- C16. For every value v of VX in 0..255 and every I with I + 2 ≤ 4095, FX33 returns
normally; memory[I], memory[I+1], memory[I+2] are the hundreds, tens and units digits of
v (at most 2, 9 and 9, with 100 * memory[I] + 10 * memory[I+1] + memory[I+2] = v); every
other memory byte, every register and the index register are unchanged. -/
theorem bcd_store (s : System) (random X : Nat) (hs : s.WellTyped) (hX : X < 16)
    (hI : s.IndexRegister + 2 ≤ 4095) (hop : fetch s = some (word 0xF X 3 3)) :
    ∃ s1, EmulateCycle s random = .ok s1 ∧
      s1.memory s.IndexRegister = s.VRegister X / 100 ∧
      s1.memory (s.IndexRegister + 1) = s.VRegister X / 10 % 10 ∧
      s1.memory (s.IndexRegister + 2) = s.VRegister X % 10 ∧
      s1.memory s.IndexRegister ≤ 2 ∧ s1.memory (s.IndexRegister + 1) ≤ 9 ∧
      s1.memory (s.IndexRegister + 2) ≤ 9 ∧
      100 * s1.memory s.IndexRegister + 10 * s1.memory (s.IndexRegister + 1) +
        s1.memory (s.IndexRegister + 2) = s.VRegister X ∧
      (∀ a, a ≠ s.IndexRegister → a ≠ s.IndexRegister + 1 → a ≠ s.IndexRegister + 2 →
        s1.memory a = s.memory a) ∧
      s1.VRegister = s.VRegister ∧ s1.IndexRegister = s.IndexRegister := by
  have hnn : word 0xF X 3 3 &&& 0x00FF = 0x0033 := word_NN 0xF X (by decide) (by decide)
  have hx : opX (word 0xF X 3 3) = X := opX_word 0xF hX (by decide) (by decide)
  have hv : s.VRegister X < 256 := hs.2.2.2.1 X hX
  have h0 : s.IndexRegister < memorySize := by unfold memorySize; omega
  have e1 : (s.IndexRegister + 1) % 65536 = s.IndexRegister + 1 := by omega
  have e2 : (s.IndexRegister + 2) % 65536 = s.IndexRegister + 2 := by omega
  have h1 : s.IndexRegister + 1 < memorySize := by unfold memorySize; omega
  have h2 : s.IndexRegister + 2 < memorySize := by unfold memorySize; omega
  have hbcd : storeBCD s (s.VRegister X) = some { s with
      memory := Function.update (Function.update (Function.update s.memory s.IndexRegister
        (s.VRegister X / 100)) (s.IndexRegister + 1) (s.VRegister X / 10 % 10))
        (s.IndexRegister + 2) (s.VRegister X % 100 % 10) } := by
    simp only [storeBCD, e1, e2, h0, h1, h2, if_true]
  rw [EmulateCycle_familyF random hop hX (by decide) (by decide)]
  simp only [familyF, hnn, hx, hbcd, Option.map_some', finishF]
  have m0 : (updateTimers (advance { s with
      memory := Function.update (Function.update (Function.update s.memory s.IndexRegister
        (s.VRegister X / 100)) (s.IndexRegister + 1) (s.VRegister X / 10 % 10))
        (s.IndexRegister + 2) (s.VRegister X % 100 % 10) } 2)).memory =
      Function.update (Function.update (Function.update s.memory s.IndexRegister
        (s.VRegister X / 100)) (s.IndexRegister + 1) (s.VRegister X / 10 % 10))
        (s.IndexRegister + 2) (s.VRegister X % 100 % 10) := by
    rw [updateTimers_memory]
    rfl
  have a0 : s.IndexRegister ≠ s.IndexRegister + 1 := by omega
  have a1 : s.IndexRegister ≠ s.IndexRegister + 2 := by omega
  have a2 : s.IndexRegister + 1 ≠ s.IndexRegister + 2 := by omega
  have mI : (updateTimers (advance { s with
      memory := Function.update (Function.update (Function.update s.memory s.IndexRegister
        (s.VRegister X / 100)) (s.IndexRegister + 1) (s.VRegister X / 10 % 10))
        (s.IndexRegister + 2) (s.VRegister X % 100 % 10) } 2)).memory s.IndexRegister =
      s.VRegister X / 100 := by
    rw [m0, Function.update_noteq a1, Function.update_noteq a0, Function.update_same]
  have mI1 : (updateTimers (advance { s with
      memory := Function.update (Function.update (Function.update s.memory s.IndexRegister
        (s.VRegister X / 100)) (s.IndexRegister + 1) (s.VRegister X / 10 % 10))
        (s.IndexRegister + 2) (s.VRegister X % 100 % 10) } 2)).memory (s.IndexRegister + 1) =
      s.VRegister X / 10 % 10 := by
    rw [m0, Function.update_noteq a2, Function.update_same]
  have mI2 : (updateTimers (advance { s with
      memory := Function.update (Function.update (Function.update s.memory s.IndexRegister
        (s.VRegister X / 100)) (s.IndexRegister + 1) (s.VRegister X / 10 % 10))
        (s.IndexRegister + 2) (s.VRegister X % 100 % 10) } 2)).memory (s.IndexRegister + 2) =
      s.VRegister X % 10 := by
    rw [m0, Function.update_same]
    omega
  refine ⟨_, rfl, mI, mI1, mI2, ?_, ?_, ?_, ?_, ?_, ?_, ?_⟩
  · rw [mI]
    omega
  · rw [mI1]
    omega
  · rw [mI2]
    omega
  · rw [mI, mI1, mI2]
    omega
  · intro a n0 n1 n2
    rw [m0, Function.update_noteq n2, Function.update_noteq n1, Function.update_noteq n0]
  · rw [updateTimers_VRegister]
    rfl
  · rw [updateTimers_IndexRegister]
    rfl

theorem wellTyped_setIndex {s : System} (h : s.WellTyped) {i : Nat} (hi : i < 65536) :
    ({ s with IndexRegister := i } : System).WellTyped :=
  ⟨h.1, hi, h.2.2⟩

/-- C16, at a concrete input: F033 with V0 = 254 and I = 0x300 stores 2, 5, 4 at 0x300,
0x301, 0x302. -/
theorem bcd_store_witness :
    ∃ s1, EmulateCycle { machine [0xF0, 0x33] [254] with IndexRegister := 0x300 } 0 = .ok s1 ∧
      s1.memory 0x300 = 2 ∧ s1.memory 0x301 = 5 ∧ s1.memory 0x302 = 4 := by
  obtain ⟨s1, h1, h2, h3, h4, _⟩ :=
    bcd_store { machine [0xF0, 0x33] [254] with IndexRegister := 0x300 } 0 0
      (wellTyped_setIndex (machine_wellTyped (by decide) (by decide)) (by decide))
      (by decide) (by decide) (by decide)
  exact ⟨s1, h1, h2, h3, h4⟩

/-! ## C17: bulk store -/

theorem foldl_storeStep (s : System) (n : Nat) (h : s.IndexRegister + n ≤ 4096) :
    (List.range n).foldl storeStep (some s) =
      some { s with memory := fun a =>
        if s.IndexRegister ≤ a ∧ a < s.IndexRegister + n then s.VRegister (a - s.IndexRegister)
        else s.memory a } := by
  induction n with
  | zero =>
    show some s = _
    congr 1
    have : (fun a => if s.IndexRegister ≤ a ∧ a < s.IndexRegister + 0 then
        s.VRegister (a - s.IndexRegister) else s.memory a) = s.memory := by
      funext a
      rw [if_neg (by omega)]
    rw [this]
  | succ n ih =>
    have hmod : (s.IndexRegister + n) % 65536 = s.IndexRegister + n := by omega
    have hlt : s.IndexRegister + n < memorySize := by unfold memorySize; omega
    rw [List.range_succ, List.foldl_append, ih (by omega)]
    simp only [List.foldl_cons, List.foldl_nil, storeStep, hmod, hlt, if_true]
    congr 2
    funext a
    by_cases ha : a = s.IndexRegister + n
    · subst ha
      rw [Function.update_same, if_pos (by omega), Nat.add_sub_cancel_left]
    · rw [Function.update_noteq ha]
      by_cases h1 : s.IndexRegister ≤ a ∧ a < s.IndexRegister + n
      · rw [if_pos h1, if_pos (by omega)]
      · rw [if_neg h1, if_neg (by omega)]

/-- C17. For every X in 0..15 and every I with I + X ≤ 4095, FX55 returns normally;
memory[I+i] equals Vi for every i ≤ X, every memory byte outside I..I+X is unchanged,
all registers are unchanged, and the index register equals I + X + 1. -/
theorem bulk_store (s : System) (random X : Nat) (hX : X < 16)
    (hI : s.IndexRegister + X ≤ 4095) (hop : fetch s = some (word 0xF X 5 5)) :
    ∃ s1, EmulateCycle s random = .ok s1 ∧
      (∀ i, i ≤ X → s1.memory (s.IndexRegister + i) = s.VRegister i) ∧
      (∀ a, a < s.IndexRegister ∨ s.IndexRegister + X < a → s1.memory a = s.memory a) ∧
      s1.VRegister = s.VRegister ∧ s1.IndexRegister = s.IndexRegister + X + 1 := by
  have hnn : word 0xF X 5 5 &&& 0x00FF = 0x0055 := word_NN 0xF X (by decide) (by decide)
  have hx : opX (word 0xF X 5 5) = X := opX_word 0xF hX (by decide) (by decide)
  rw [EmulateCycle_familyF random hop hX (by decide) (by decide)]
  simp only [familyF, hnn, hx, foldl_storeStep s (X + 1) (by omega), Option.map_some', finishF]
  refine ⟨_, rfl, ?_, ?_, ?_, ?_⟩
  · intro i hi
    rw [updateTimers_memory]
    show (if s.IndexRegister ≤ s.IndexRegister + i ∧
        s.IndexRegister + i < s.IndexRegister + (X + 1) then
        s.VRegister (s.IndexRegister + i - s.IndexRegister) else s.memory (s.IndexRegister + i)) = _
    rw [if_pos (by omega), Nat.add_sub_cancel_left]
  · intro a ha
    rw [updateTimers_memory]
    show (if s.IndexRegister ≤ a ∧ a < s.IndexRegister + (X + 1) then
        s.VRegister (a - s.IndexRegister) else s.memory a) = _
    rw [if_neg (by omega)]
  · rw [updateTimers_VRegister]
    rfl
  · rw [updateTimers_IndexRegister]
    show (s.IndexRegister + (X + 1)) % 65536 = s.IndexRegister + X + 1
    omega

/-- C17, at a concrete input: F255 with V0, V1, V2 = 7, 8, 9 and I = 0x300 stores 7, 8, 9
at 0x300, 0x301, 0x302, leaves 0x303 as it was and ends with I = 0x303. -/
theorem bulk_store_witness :
    ∃ s1, EmulateCycle { machine [0xF2, 0x55] [7, 8, 9] with IndexRegister := 0x300 } 0 = .ok s1 ∧
      s1.memory 0x300 = 7 ∧ s1.memory 0x301 = 8 ∧ s1.memory 0x302 = 9 ∧ s1.memory 0x303 = 0 ∧
      s1.IndexRegister = 0x303 := by
  obtain ⟨s1, h1, h2, h3, _, h5⟩ :=
    bulk_store { machine [0xF2, 0x55] [7, 8, 9] with IndexRegister := 0x300 } 0 2
      (by decide) (by decide) (by decide)
  exact ⟨s1, h1, h2 0 (by decide), h2 1 (by decide), h2 2 (by decide),
    h3 0x303 (Or.inr (by decide)), h5⟩

/-! ## C19: the timers -/

theorem updateTimers_timers (s : System) :
    (updateTimers s).DelayTimer = s.DelayTimer - 1 ∧
    (updateTimers s).SoundTimer = s.SoundTimer - 1 := by
  by_cases h1 : s.DelayTimer > 0 <;> by_cases h2 : s.SoundTimer > 0 <;>
    simp [updateTimers, h1, h2] <;> omega

theorem foldl_toggle_timers (l : List Nat) (s : System) :
    (l.foldl toggle s).DelayTimer = s.DelayTimer ∧
    (l.foldl toggle s).SoundTimer = s.SoundTimer := by
  induction l generalizing s with
  | nil => exact ⟨rfl, rfl⟩
  | cons o l ih =>
    rw [List.foldl_cons]
    obtain ⟨h1, h2⟩ := ih (toggle s o)
    rw [h1, h2]
    unfold toggle
    split <;> exact ⟨rfl, rfl⟩

theorem drawRow_timers (x y : Nat) (l : List Nat) (s t : System)
    (h : l.foldl (drawRow x y) (some s) = some t) :
    t.DelayTimer = s.DelayTimer ∧ t.SoundTimer = s.SoundTimer := by
  refine foldl_some_invariant
    (fun u => u.DelayTimer = s.DelayTimer ∧ u.SoundTimer = s.SoundTimer) (fun _ => rfl)
    ?_ l s t h ⟨rfl, rfl⟩
  intro u i v huv hu
  unfold drawRow at huv
  dsimp only at huv
  split at huv
  · cases huv
    rw [foldl_drawBit]
    obtain ⟨h1, h2⟩ := foldl_toggle_timers
      (List.filterMap (fun xline =>
        if u.memory ((u.IndexRegister + i) % 65536) &&& (0x80 >>> xline) ≠ 0 ∧
            frameBufferSize > (x + xline + (y + i) * 64) % 65536
        then some ((x + xline + (y + i) * 64) % 65536) else none) (List.range 8)) u
    exact ⟨h1.trans hu.1, h2.trans hu.2⟩
  · cases huv

theorem storeStep_timers (l : List Nat) (s t : System)
    (h : l.foldl storeStep (some s) = some t) :
    t.DelayTimer = s.DelayTimer ∧ t.SoundTimer = s.SoundTimer := by
  refine foldl_some_invariant
    (fun u => u.DelayTimer = s.DelayTimer ∧ u.SoundTimer = s.SoundTimer) (fun _ => rfl)
    ?_ l s t h ⟨rfl, rfl⟩
  intro u i v huv hu
  unfold storeStep at huv
  dsimp only at huv
  split at huv
  · cases huv
    exact hu
  · cases huv

theorem loadStep_timers (l : List Nat) (s t : System)
    (h : l.foldl loadStep (some s) = some t) :
    t.DelayTimer = s.DelayTimer ∧ t.SoundTimer = s.SoundTimer := by
  refine foldl_some_invariant
    (fun u => u.DelayTimer = s.DelayTimer ∧ u.SoundTimer = s.SoundTimer) (fun _ => rfl)
    ?_ l s t h ⟨rfl, rfl⟩
  intro u i v huv hu
  unfold loadStep at huv
  dsimp only at huv
  split at huv
  · cases huv
    exact hu
  · cases huv

theorem storeBCD_timers (s t : System) (v : Nat) (h : storeBCD s v = some t) :
    t.DelayTimer = s.DelayTimer ∧ t.SoundTimer = s.SoundTimer := by
  unfold storeBCD at h
  dsimp only at h
  split at h
  · split at h
    · split at h
      · cases h
        exact ⟨rfl, rfl⟩
      · cases h
    · cases h
  · cases h

theorem family8_timers {s s1 : System} {opcode : Nat} (h : family8 s opcode = .ok s1) :
    s1.DelayTimer = s.DelayTimer ∧ s1.SoundTimer = s.SoundTimer := by
  unfold family8 at h
  dsimp only at h
  split at h
  all_goals first
    | (cases h; exact ⟨rfl, rfl⟩)
    | (cases h
       constructor
       · simp [advance, setV, apply_ite System.DelayTimer]
       · simp [advance, setV, apply_ite System.SoundTimer])
    | cases h

theorem familyE_timers {s s1 : System} {opcode : Nat} (h : familyE s opcode = .ok s1) :
    s1.DelayTimer = s.DelayTimer ∧ s1.SoundTimer = s.SoundTimer := by
  unfold familyE at h
  split at h
  · split at h
    · cases h
      unfold skipIf
      split <;> exact ⟨rfl, rfl⟩
    · cases h
  · split at h
    · cases h
      unfold skipIf
      split <;> exact ⟨rfl, rfl⟩
    · cases h
  · cases h

theorem draw_timers {s s1 : System} {opcode : Nat} (h : draw s opcode = .ok s1) :
    s1.DelayTimer = s.DelayTimer ∧ s1.SoundTimer = s.SoundTimer := by
  simp only [draw] at h
  split at h
  · cases h
  · rename_i t ht
    cases h
    exact drawRow_timers _ _ _ (setV s 0xF 0) t ht

theorem skipIf_timers (s : System) (c : Bool) :
    (skipIf s c).DelayTimer = s.DelayTimer ∧ (skipIf s c).SoundTimer = s.SoundTimer := by
  unfold skipIf
  split <;> exact ⟨rfl, rfl⟩

theorem execute_timers {s s1 : System} {random opcode : Nat}
    (h : execute s random opcode = .ok s1) (hne : opcode &&& 0xF000 ≠ 0xF000) :
    s1.DelayTimer = s.DelayTimer ∧ s1.SoundTimer = s.SoundTimer := by
  unfold execute at h
  split at h
  · split at h
    · cases h
      constructor <;> simp only [advance, clearScreen]
    · dsimp only at h
      split at h
      · cases h
        exact ⟨rfl, rfl⟩
      · cases h
    · cases h
  · cases h; exact ⟨rfl, rfl⟩
  · split at h
    · cases h; exact ⟨rfl, rfl⟩
    · cases h
  · cases h; exact skipIf_timers _ _
  · cases h; exact skipIf_timers _ _
  · cases h; exact skipIf_timers _ _
  · cases h; exact ⟨rfl, rfl⟩
  · cases h; exact ⟨rfl, rfl⟩
  · exact family8_timers h
  · cases h; exact skipIf_timers _ _
  · cases h; exact ⟨rfl, rfl⟩
  · cases h; exact ⟨rfl, rfl⟩
  · cases h; exact ⟨rfl, rfl⟩
  · exact draw_timers h
  · exact familyE_timers h
  · rename_i hfam
    exact absurd hfam hne
  · cases h; exact ⟨rfl, rfl⟩

theorem finishF_timers {t s1 : System} (h : finishF (some t) = .ok s1) :
    s1.DelayTimer = t.DelayTimer - 1 ∧ s1.SoundTimer = t.SoundTimer - 1 := by
  cases h
  exact updateTimers_timers t

theorem finishF_map_timers {r : Option System} {g : System → System} {s1 : System}
    (h : finishF (r.map g) = .ok s1) :
    ∃ t, r = some t ∧ s1.DelayTimer = (g t).DelayTimer - 1 ∧
      s1.SoundTimer = (g t).SoundTimer - 1 := by
  cases r with
  | none => cases h
  | some u => exact ⟨u, rfl, finishF_timers h⟩

theorem familyF_timers {s s1 : System} {opcode : Nat} (h : familyF s opcode = .ok s1)
    (hkey : ¬ (opcode &&& 0x00FF = 0x000A ∧ ∀ k, k < 16 → s.KeyStates k = 0)) :
    s1.DelayTimer =
      (if opcode &&& 0x00FF = 0x0015 then s.VRegister (opX opcode) else s.DelayTimer) - 1 ∧
    s1.SoundTimer =
      (if opcode &&& 0x00FF = 0x0018 then s.VRegister (opX opcode) else s.SoundTimer) - 1 := by
  unfold familyF at h
  dsimp only at h
  split at h
  · rename_i heq
    obtain ⟨h1, h2⟩ := finishF_timers h
    rw [h1, h2, heq]
    constructor <;> simp [advance, setV]
  · rename_i heq
    rcases foldl_keyWaitStep s (opX opcode) 16 with ⟨h0, _⟩ | ⟨k, _, _, e⟩
    · exact absurd ⟨heq, h0⟩ hkey
    · rw [e] at h
      have h3 : finishF (some (advance (setV s (opX opcode) k) 2)) = .ok s1 := by
        simpa using h
      obtain ⟨h1, h2⟩ := finishF_timers h3
      rw [h1, h2, heq]
      constructor <;> simp [advance, setV]
  · rename_i heq
    obtain ⟨h1, h2⟩ := finishF_timers h
    rw [h1, h2, heq]
    constructor <;> simp [advance]
  · rename_i heq
    obtain ⟨h1, h2⟩ := finishF_timers h
    rw [h1, h2, heq]
    constructor <;> simp [advance]
  · rename_i heq
    obtain ⟨h1, h2⟩ := finishF_timers h
    rw [h1, h2, heq]
    constructor
    · simp [advance, setV, apply_ite System.DelayTimer]
    · simp [advance, setV, apply_ite System.SoundTimer]
  · rename_i heq
    obtain ⟨h1, h2⟩ := finishF_timers h
    rw [h1, h2, heq]
    constructor <;> simp [advance]
  · rename_i heq
    obtain ⟨t, ht, h1, h2⟩ := finishF_map_timers h
    obtain ⟨e1, e2⟩ := storeBCD_timers _ _ _ ht
    rw [h1, h2, heq]
    constructor
    · simp [advance, e1]
    · simp [advance, e2]
  · rename_i heq
    obtain ⟨t, ht, h1, h2⟩ := finishF_map_timers h
    obtain ⟨e1, e2⟩ := storeStep_timers _ _ _ ht
    rw [h1, h2, heq]
    constructor
    · simp [advance, e1]
    · simp [advance, e2]
  · rename_i heq
    obtain ⟨t, ht, h1, h2⟩ := finishF_map_timers h
    obtain ⟨e1, e2⟩ := loadStep_timers _ _ _ ht
    rw [h1, h2, heq]
    constructor
    · simp [advance, e1]
    · simp [advance, e2]
  · cases h

/-- C19. Every step that returns normally on a word whose top nibble is not F leaves
the delay timer and the sound timer unchanged.  Every F-family step that returns
normally, other than a key wait FX0A with no key pressed, leaves each timer at the value
it holds after the instruction's own effect (VX for the delay timer after FX15, VX for
the sound timer after FX18, the old value otherwise) decremented by one if that value is
non-zero and at 0 if it is 0. -/
theorem timer_coupling (s s1 : System) (random opcode : Nat)
    (hop : fetch s = some opcode) (h : EmulateCycle s random = .ok s1) :
    (opcode &&& 0xF000 ≠ 0xF000 →
      s1.DelayTimer = s.DelayTimer ∧ s1.SoundTimer = s.SoundTimer) ∧
    (opcode &&& 0xF000 = 0xF000 →
      ¬ (opcode &&& 0x00FF = 0x000A ∧ ∀ k, k < 16 → s.KeyStates k = 0) →
      (s1.DelayTimer =
        if 0 < (if opcode &&& 0x00FF = 0x0015 then s.VRegister (opX opcode) else s.DelayTimer)
        then (if opcode &&& 0x00FF = 0x0015 then s.VRegister (opX opcode) else s.DelayTimer) - 1
        else 0) ∧
      (s1.SoundTimer =
        if 0 < (if opcode &&& 0x00FF = 0x0018 then s.VRegister (opX opcode) else s.SoundTimer)
        then (if opcode &&& 0x00FF = 0x0018 then s.VRegister (opX opcode) else s.SoundTimer) - 1
        else 0)) := by
  simp only [EmulateCycle, hop] at h
  constructor
  · intro hne
    exact execute_timers h hne
  · intro hfam hkey
    simp only [execute, hfam] at h
    obtain ⟨h1, h2⟩ := familyF_timers h hkey
    rw [h1, h2]
    constructor
    · split_ifs <;> omega
    · split_ifs <;> omega

/-- C19, at concrete inputs, from delay timer 5 and sound timer 3: 6012 leaves both
timers; F015 with V0 = 9 leaves the delay timer at 8 and the sound timer at 2. -/
theorem timer_coupling_witness :
    (∃ s1, EmulateCycle { machine [0x60, 0x12] [9] with DelayTimer := 5, SoundTimer := 3 } 0
        = .ok s1 ∧ s1.DelayTimer = 5 ∧ s1.SoundTimer = 3) ∧
    (∃ s1, EmulateCycle { machine [0xF0, 0x15] [9] with DelayTimer := 5, SoundTimer := 3 } 0
        = .ok s1 ∧ s1.DelayTimer = 8 ∧ s1.SoundTimer = 2) := by
  constructor
  · have h := (timer_coupling { machine [0x60, 0x12] [9] with DelayTimer := 5, SoundTimer := 3 }
      _ 0 0x6012 (by decide) rfl).1 (by decide)
    exact ⟨_, rfl, h⟩
  · have h := (timer_coupling { machine [0xF0, 0x15] [9] with DelayTimer := 5, SoundTimer := 3 }
      _ 0 0xF015 (by decide) rfl).2 (by decide) (by decide)
    exact ⟨_, rfl, h⟩

/-! ## C13: memory addresses -/

theorem foldl_guarded (f : Option System → Nat → Option System)
    (hnone : ∀ i, f none i = none)
    (hguard : ∀ u i, f (some u) i = none ↔ memorySize ≤ (u.IndexRegister + i) % 65536)
    (hI : ∀ u i v, f (some u) i = some v → v.IndexRegister = u.IndexRegister)
    (s : System) (n : Nat) :
    (List.range n).foldl f (some s) = none ↔
      ∃ i, i < n ∧ memorySize ≤ (s.IndexRegister + i) % 65536 := by
  induction n with
  | zero =>
    constructor
    · intro h
      cases h
    · rintro ⟨i, hi, _⟩
      exact absurd hi (Nat.not_lt_zero i)
  | succ n ih =>
    rw [List.range_succ, List.foldl_append, List.foldl_cons, List.foldl_nil]
    cases hfold : (List.range n).foldl f (some s) with
    | none =>
      rw [hnone]
      obtain ⟨i, hi, hbad⟩ := ih.mp hfold
      exact ⟨fun _ => ⟨i, Nat.lt_succ_of_lt hi, hbad⟩, fun _ => rfl⟩
    | some t =>
      have ht : t.IndexRegister = s.IndexRegister :=
        foldl_some_invariant (fun u => u.IndexRegister = s.IndexRegister) hnone
          (fun u i v huv hu => (hI u i v huv).trans hu) (List.range n) s t hfold rfl
      have hgood : ¬ ∃ i, i < n ∧ memorySize ≤ (s.IndexRegister + i) % 65536 := by
        intro h
        rw [ih.mpr h] at hfold
        cases hfold
      rw [hguard, ht]
      constructor
      · intro h
        exact ⟨n, Nat.lt_succ_self n, h⟩
      · rintro ⟨i, hi, hbad⟩
        rcases Nat.lt_succ_iff_lt_or_eq.mp hi with h1 | h1
        · exact absurd ⟨i, h1, hbad⟩ hgood
        · rw [← h1]
          exact hbad

theorem drawRow_guard (x y : Nat) (u : System) (i : Nat) :
    drawRow x y (some u) i = none ↔ memorySize ≤ (u.IndexRegister + i) % 65536 := by
  unfold drawRow
  dsimp only
  split
  · rename_i h
    constructor
    · intro e
      cases e
    · intro e
      omega
  · rename_i h
    constructor
    · intro _
      omega
    · intro _
      rfl

theorem drawRow_IndexRegister (x y : Nat) (u : System) (i : Nat) (v : System)
    (h : drawRow x y (some u) i = some v) : v.IndexRegister = u.IndexRegister := by
  unfold drawRow at h
  dsimp only at h
  split at h
  · cases h
    rw [foldl_drawBit, foldl_toggle_IndexRegister]
  · cases h

theorem storeStep_guard (u : System) (i : Nat) :
    storeStep (some u) i = none ↔ memorySize ≤ (u.IndexRegister + i) % 65536 := by
  unfold storeStep
  dsimp only
  split
  · rename_i h
    constructor
    · intro e
      cases e
    · intro e
      omega
  · rename_i h
    constructor
    · intro _
      omega
    · intro _
      rfl

theorem storeStep_IndexRegister (u : System) (i : Nat) (v : System)
    (h : storeStep (some u) i = some v) : v.IndexRegister = u.IndexRegister := by
  unfold storeStep at h
  dsimp only at h
  split at h
  · cases h
    rfl
  · cases h

theorem loadStep_guard (u : System) (i : Nat) :
    loadStep (some u) i = none ↔ memorySize ≤ (u.IndexRegister + i) % 65536 := by
  unfold loadStep
  dsimp only
  split
  · rename_i h
    constructor
    · intro e
      cases e
    · intro e
      omega
  · rename_i h
    constructor
    · intro _
      omega
    · intro _
      rfl

theorem loadStep_IndexRegister (u : System) (i : Nat) (v : System)
    (h : loadStep (some u) i = some v) : v.IndexRegister = u.IndexRegister := by
  unfold loadStep at h
  dsimp only at h
  split at h
  · cases h
    rfl
  · cases h

theorem finishF_panic_iff (r : Option System) : finishF r = .panic ↔ r = none := by
  cases r with
  | none => exact ⟨fun _ => rfl, fun _ => rfl⟩
  | some t =>
    constructor
    · intro h
      cases h
    · intro h
      cases h

theorem map_eq_none_iff_none {g : System → System} (r : Option System) :
    r.map g = none ↔ r = none := by
  cases r <;> simp

theorem storeBCD_none_iff (s : System) (v : Nat) :
    storeBCD s v = none ↔
      memorySize ≤ s.IndexRegister ∨ memorySize ≤ (s.IndexRegister + 1) % 65536 ∨
      memorySize ≤ (s.IndexRegister + 2) % 65536 := by
  unfold storeBCD
  dsimp only
  split
  · split
    · split
      · constructor
        · intro e
          cases e
        · intro e
          omega
      · constructor
        · intro _
          omega
        · intro _
          rfl
    · constructor
      · intro _
        omega
      · intro _
        rfl
  · constructor
    · intro _
      omega
    · intro _
      rfl

theorem draw_panic_iff (s : System) (opcode : Nat) :
    draw s opcode = .panic ↔
      ∃ r, r < opcode &&& 0x000F ∧ memorySize ≤ (s.IndexRegister + r) % 65536 := by
  have h := foldl_guarded (drawRow (s.VRegister (opX opcode)) (s.VRegister (opY opcode)))
    (fun _ => rfl) (drawRow_guard _ _) (drawRow_IndexRegister _ _) (setV s 0xF 0)
    (opcode &&& 0x000F)
  have h2 : (List.foldl (drawRow (s.VRegister (opX opcode)) (s.VRegister (opY opcode)))
      (some (setV s 0xF 0)) (List.range (opcode &&& 0x000F)) = none) ↔
      ∃ r, r < opcode &&& 0x000F ∧ memorySize ≤ (s.IndexRegister + r) % 65536 := h
  simp only [draw]
  rw [← h2]
  split
  · rename_i e
    exact ⟨fun _ => e, fun _ => rfl⟩
  · rename_i t e
    constructor
    · intro k
      cases k
    · intro k
      rw [k] at e
      cases e

theorem memoryAddresses_none {s : System} (hop : fetch s = none) :
    memoryAddresses s = [s.ProgramCounter, (s.ProgramCounter + 1) % 65536] := by
  simp [memoryAddresses, hop]

theorem memoryAddresses_draw {s : System} {opcode : Nat} (hop : fetch s = some opcode)
    (hD : opcode &&& 0xF000 = 0xD000) :
    memoryAddresses s = [s.ProgramCounter, (s.ProgramCounter + 1) % 65536] ++
      (List.range (opcode &&& 0x000F)).map (fun yline => (s.IndexRegister + yline) % 65536) := by
  simp [memoryAddresses, hop, hD]

theorem memoryAddresses_bcd {s : System} {opcode : Nat} (hop : fetch s = some opcode)
    (hF : opcode &&& 0xF000 = 0xF000) (h33 : opcode &&& 0x00FF = 0x0033) :
    memoryAddresses s = [s.ProgramCounter, (s.ProgramCounter + 1) % 65536] ++
      [s.IndexRegister, (s.IndexRegister + 1) % 65536, (s.IndexRegister + 2) % 65536] := by
  simp [memoryAddresses, hop, hF, h33]

theorem memoryAddresses_store {s : System} {opcode : Nat} (hop : fetch s = some opcode)
    (hF : opcode &&& 0xF000 = 0xF000) (h55 : opcode &&& 0x00FF = 0x0055) :
    memoryAddresses s = [s.ProgramCounter, (s.ProgramCounter + 1) % 65536] ++
      (List.range (opX opcode + 1)).map (fun i => (s.IndexRegister + i) % 65536) := by
  simp [memoryAddresses, hop, hF, h55]

theorem memoryAddresses_load {s : System} {opcode : Nat} (hop : fetch s = some opcode)
    (hF : opcode &&& 0xF000 = 0xF000) (h65 : opcode &&& 0x00FF = 0x0065) :
    memoryAddresses s = [s.ProgramCounter, (s.ProgramCounter + 1) % 65536] ++
      (List.range (opX opcode)).map (fun i => (s.IndexRegister + i) % 65536) := by
  simp [memoryAddresses, hop, hF, h65]

theorem fetch_eq_none_iff (s : System) :
    fetch s = none ↔
      memorySize ≤ s.ProgramCounter ∨ memorySize ≤ (s.ProgramCounter + 1) % 65536 := by
  unfold fetch
  split
  · rename_i h
    constructor
    · intro e
      cases e
    · intro e
      omega
  · rename_i h
    constructor
    · intro _
      omega
    · intro _
      rfl

theorem family8_ne_panic (s : System) (opcode : Nat) : family8 s opcode ≠ .panic := by
  unfold family8
  dsimp only
  intro h
  split at h <;> cases h

theorem familyF_panic_iff (s : System) (opcode : Nat) :
    familyF s opcode = .panic ↔
      (opcode &&& 0x00FF = 0x0033 ∧ storeBCD s (s.VRegister (opX opcode)) = none) ∨
      (opcode &&& 0x00FF = 0x0055 ∧
        (List.range (opX opcode + 1)).foldl storeStep (some s) = none) ∨
      (opcode &&& 0x00FF = 0x0065 ∧ (List.range (opX opcode)).foldl loadStep (some s) = none) := by
  unfold familyF
  dsimp only
  split
  · rename_i heq
    rw [finishF_panic_iff]
    constructor
    · intro h
      cases h
    · rintro (⟨h, _⟩ | ⟨h, _⟩ | ⟨h, _⟩) <;> omega
  · rename_i heq
    constructor
    · intro h
      split at h
      · cases h
      · rw [finishF_panic_iff] at h
        cases h
    · rintro (⟨h, _⟩ | ⟨h, _⟩ | ⟨h, _⟩) <;> omega
  · rename_i heq
    rw [finishF_panic_iff]
    constructor
    · intro h
      cases h
    · rintro (⟨h, _⟩ | ⟨h, _⟩ | ⟨h, _⟩) <;> omega
  · rename_i heq
    rw [finishF_panic_iff]
    constructor
    · intro h
      cases h
    · rintro (⟨h, _⟩ | ⟨h, _⟩ | ⟨h, _⟩) <;> omega
  · rename_i heq
    rw [finishF_panic_iff]
    constructor
    · intro h
      cases h
    · rintro (⟨h, _⟩ | ⟨h, _⟩ | ⟨h, _⟩) <;> omega
  · rename_i heq
    rw [finishF_panic_iff]
    constructor
    · intro h
      cases h
    · rintro (⟨h, _⟩ | ⟨h, _⟩ | ⟨h, _⟩) <;> omega
  · rename_i heq
    rw [finishF_panic_iff, map_eq_none_iff_none]
    constructor
    · intro h
      exact Or.inl ⟨heq, h⟩
    · rintro (⟨_, h⟩ | ⟨h, _⟩ | ⟨h, _⟩)
      · exact h
      · omega
      · omega
  · rename_i heq
    rw [finishF_panic_iff, map_eq_none_iff_none]
    constructor
    · intro h
      exact Or.inr (Or.inl ⟨heq, h⟩)
    · rintro (⟨h, _⟩ | ⟨_, h⟩ | ⟨h, _⟩)
      · omega
      · exact h
      · omega
  · rename_i heq
    rw [finishF_panic_iff, map_eq_none_iff_none]
    constructor
    · intro h
      exact Or.inr (Or.inr ⟨heq, h⟩)
    · rintro (⟨h, _⟩ | ⟨h, _⟩ | ⟨_, h⟩)
      · omega
      · omega
      · exact h
  · constructor
    · intro h
      cases h
    · rintro (⟨h, _⟩ | ⟨h, _⟩ | ⟨h, _⟩) <;> contradiction

theorem execute_panic_cases {s : System} {random opcode : Nat}
    (h : execute s random opcode = .panic) :
    (opcode &&& 0xF000 = 0xD000 ∧ draw s opcode = .panic) ∨
    (opcode &&& 0xF000 = 0xF000 ∧ familyF s opcode = .panic) ∨
    (opcode &&& 0xF000 = 0x2000 ∧ 16 ≤ s.StackPointer) ∨
    (opcode &&& 0xF000 = 0x0000 ∧ opcode &&& 0x000F = 0x000E ∧
      16 ≤ (s.StackPointer + 65535) % 65536) ∨
    (opcode &&& 0xF000 = 0xE000 ∧ 16 ≤ s.VRegister (opX opcode)) := by
  unfold execute at h
  split at h
  · rename_i hfam
    split at h
    · cases h
    · rename_i hlow
      dsimp only at h
      split at h
      · cases h
      · rename_i hsp
        exact Or.inr (Or.inr (Or.inr (Or.inl ⟨hfam, hlow, by omega⟩)))
    · cases h
  · cases h
  · rename_i hfam
    split at h
    · cases h
    · rename_i hsp
      exact Or.inr (Or.inr (Or.inl ⟨hfam, by omega⟩))
  · cases h
  · cases h
  · cases h
  · cases h
  · cases h
  · exact absurd h (family8_ne_panic _ _)
  · cases h
  · cases h
  · cases h
  · cases h
  · rename_i hfam
    exact Or.inl ⟨hfam, h⟩
  · rename_i hfam
    unfold familyE at h
    split at h
    · split at h
      · cases h
      · rename_i hv
        exact Or.inr (Or.inr (Or.inr (Or.inr ⟨hfam, by omega⟩)))
    · split at h
      · cases h
      · rename_i hv
        exact Or.inr (Or.inr (Or.inr (Or.inr ⟨hfam, by omega⟩)))
    · cases h
  · rename_i hfam
    exact Or.inr (Or.inl ⟨hfam, h⟩)
  · cases h

theorem memoryAddresses_other {s : System} {opcode : Nat} (hop : fetch s = some opcode)
    (hD : opcode &&& 0xF000 ≠ 0xD000)
    (hF : opcode &&& 0xF000 = 0xF000 → opcode &&& 0x00FF ≠ 0x0033 ∧
      opcode &&& 0x00FF ≠ 0x0055 ∧ opcode &&& 0x00FF ≠ 0x0065) :
    memoryAddresses s = [s.ProgramCounter, (s.ProgramCounter + 1) % 65536] := by
  by_cases h : opcode &&& 0xF000 = 0xF000
  · obtain ⟨h1, h2, h3⟩ := hF h
    simp [memoryAddresses, hop, h, h1, h2, h3]
  · simp [memoryAddresses, hop, hD, h]

theorem fetch_some_bounds {s : System} {opcode : Nat} (hop : fetch s = some opcode) :
    s.ProgramCounter < memorySize ∧ (s.ProgramCounter + 1) % 65536 < memorySize := by
  have h : ¬ (memorySize ≤ s.ProgramCounter ∨ memorySize ≤ (s.ProgramCounter + 1) % 65536) := by
    intro hbad
    rw [(fetch_eq_none_iff s).mpr hbad] at hop
    cases hop
  omega

theorem data_panic_iff {s : System} {opcode : Nat} (hop : fetch s = some opcode) :
    ((opcode &&& 0xF000 = 0xD000 ∧ draw s opcode = .panic) ∨
      (opcode &&& 0xF000 = 0xF000 ∧ familyF s opcode = .panic)) ↔
      ∃ a, a ∈ memoryAddresses s ∧ memorySize ≤ a := by
  obtain ⟨hpc0, hpc1⟩ := fetch_some_bounds hop
  have hstore := foldl_guarded storeStep (fun _ => rfl) storeStep_guard
    storeStep_IndexRegister s (opX opcode + 1)
  have hload := foldl_guarded loadStep (fun _ => rfl) loadStep_guard
    loadStep_IndexRegister s (opX opcode)
  constructor
  · rintro (⟨hD, h⟩ | ⟨hF, h⟩)
    · obtain ⟨r, hr, hbad⟩ := (draw_panic_iff s opcode).mp h
      refine ⟨(s.IndexRegister + r) % 65536, ?_, hbad⟩
      rw [memoryAddresses_draw hop hD]
      exact List.mem_append_right _ (List.mem_map.mpr ⟨r, List.mem_range.mpr hr, rfl⟩)
    · rcases (familyF_panic_iff s opcode).mp h with ⟨h33, hn⟩ | ⟨h55, hn⟩ | ⟨h65, hn⟩
      · rw [memoryAddresses_bcd hop hF h33]
        rcases (storeBCD_none_iff s _).mp hn with hb | hb | hb
        · exact ⟨_, List.mem_append_right _ (List.mem_cons_self _ _), hb⟩
        · exact ⟨_, List.mem_append_right _
            (List.mem_cons_of_mem _ (List.mem_cons_self _ _)), hb⟩
        · exact ⟨_, List.mem_append_right _
            (List.mem_cons_of_mem _ (List.mem_cons_of_mem _ (List.mem_cons_self _ _))), hb⟩
      · obtain ⟨i, hi, hbad⟩ := hstore.mp hn
        refine ⟨(s.IndexRegister + i) % 65536, ?_, hbad⟩
        rw [memoryAddresses_store hop hF h55]
        exact List.mem_append_right _ (List.mem_map.mpr ⟨i, List.mem_range.mpr hi, rfl⟩)
      · obtain ⟨i, hi, hbad⟩ := hload.mp hn
        refine ⟨(s.IndexRegister + i) % 65536, ?_, hbad⟩
        rw [memoryAddresses_load hop hF h65]
        exact List.mem_append_right _ (List.mem_map.mpr ⟨i, List.mem_range.mpr hi, rfl⟩)
  · rintro ⟨a, ha, hbad⟩
    have hfront : a ∉ [s.ProgramCounter, (s.ProgramCounter + 1) % 65536] := by
      intro hm
      rcases List.mem_cons.mp hm with e | hm2
      · omega
      · rcases List.mem_cons.mp hm2 with e | hm3
        · omega
        · cases hm3
    by_cases hD : opcode &&& 0xF000 = 0xD000
    · left
      rw [memoryAddresses_draw hop hD] at ha
      rcases List.mem_append.mp ha with h1 | h1
      · exact absurd h1 hfront
      · obtain ⟨r, hr, e⟩ := List.mem_map.mp h1
        exact ⟨hD, (draw_panic_iff s opcode).mpr ⟨r, List.mem_range.mp hr, by omega⟩⟩
    · right
      by_cases hF : opcode &&& 0xF000 = 0xF000
      · refine ⟨hF, (familyF_panic_iff s opcode).mpr ?_⟩
        by_cases h33 : opcode &&& 0x00FF = 0x0033
        · left
          rw [memoryAddresses_bcd hop hF h33] at ha
          rcases List.mem_append.mp ha with h1 | h1
          · exact absurd h1 hfront
          · refine ⟨h33, (storeBCD_none_iff s _).mpr ?_⟩
            rcases List.mem_cons.mp h1 with e | h2
            · left; omega
            · rcases List.mem_cons.mp h2 with e | h3
              · right; left; omega
              · rcases List.mem_cons.mp h3 with e | h4
                · right; right; omega
                · cases h4
        · by_cases h55 : opcode &&& 0x00FF = 0x0055
          · right; left
            rw [memoryAddresses_store hop hF h55] at ha
            rcases List.mem_append.mp ha with h1 | h1
            · exact absurd h1 hfront
            · obtain ⟨i, hi, e⟩ := List.mem_map.mp h1
              exact ⟨h55, hstore.mpr ⟨i, List.mem_range.mp hi, by omega⟩⟩
          · by_cases h65 : opcode &&& 0x00FF = 0x0065
            · right; right
              rw [memoryAddresses_load hop hF h65] at ha
              rcases List.mem_append.mp ha with h1 | h1
              · exact absurd h1 hfront
              · obtain ⟨i, hi, e⟩ := List.mem_map.mp h1
                exact ⟨h65, hload.mpr ⟨i, List.mem_range.mp hi, by omega⟩⟩
            · rw [memoryAddresses_other hop hD (fun _ => ⟨h33, h55, h65⟩)] at ha
              exact absurd ha hfront
      · rw [memoryAddresses_other hop hD (fun h => absurd h hF)] at ha
        exact absurd ha hfront

/-- C13 as stated fails. The 2-byte ROM 1F FF is accepted by `LoadRom`; its first step
jumps to 0xFFF, and the fetch of the second step uses the addresses 0xFFF and 0x1000:
0x1000 is outside 0..4095 and the step panics on the bounds check. -/
theorem memory_access_counterexample :
    ∃ s0 s1, LoadRom (New (fun _ => 0) 0) [0x1F, 0xFF] = .ok s0 ∧
      EmulateCycle s0 0 = .ok s1 ∧ s1.ProgramCounter = 0xFFF ∧
      0x1000 ∈ memoryAddresses s1 ∧ EmulateCycle s1 0 = .panic :=
  ⟨_, _, rfl, rfl, by decide, by decide, rfl⟩

/-- C13, amended. For every state with PC + 1 ≤ 4095 and I + 15 ≤ 4095, every memory
address one `EmulateCycle` step uses (fetch at PC and PC+1, sprite rows at I+row, BCD at
I..I+2, bulk store at I..I+X, bulk load at I..I+X-1) lies in 0..4095.  The code keeps no
such bounds: when one of the addresses lies outside 0..4095 the step panics, and when all
lie inside, a panic of the step is not a memory access but the stack (call with SP ≥ 16,
return to a slot ≥ 16) or a key index VX ≥ 16. -/
theorem memory_access_bounds (s : System) (random : Nat) :
    (s.ProgramCounter + 1 ≤ 4095 → s.IndexRegister + 15 ≤ 4095 →
      ∀ a, a ∈ memoryAddresses s → a < memorySize) ∧
    ((∃ a, a ∈ memoryAddresses s ∧ memorySize ≤ a) → EmulateCycle s random = .panic) ∧
    ((∀ a, a ∈ memoryAddresses s → a < memorySize) → EmulateCycle s random = .panic →
      ∃ opcode, fetch s = some opcode ∧
        ((opcode &&& 0xF000 = 0x2000 ∧ 16 ≤ s.StackPointer) ∨
          (opcode &&& 0xF000 = 0x0000 ∧ opcode &&& 0x000F = 0x000E ∧
            16 ≤ (s.StackPointer + 65535) % 65536) ∨
          (opcode &&& 0xF000 = 0xE000 ∧ 16 ≤ s.VRegister (opX opcode)))) := by
  refine ⟨?_, ?_, ?_⟩
  · intro hpc hI a ha
    by_contra hbad
    have hbad2 : memorySize ≤ a := by omega
    cases hop : fetch s with
    | none =>
      rw [memoryAddresses_none hop] at ha
      unfold memorySize at hbad2
      rcases List.mem_cons.mp ha with e | h2
      · omega
      · rcases List.mem_cons.mp h2 with e | h3
        · omega
        · cases h3
    | some opcode =>
      have hlow : opcode &&& 0x000F < 16 := by
        rw [and_000F]
        omega
      have hx : opX opcode < 16 := by
        rw [opX_eq]
        omega
      have hstore := foldl_guarded storeStep (fun _ => rfl) storeStep_guard
        storeStep_IndexRegister s (opX opcode + 1)
      have hload := foldl_guarded loadStep (fun _ => rfl) loadStep_guard
        loadStep_IndexRegister s (opX opcode)
      rcases (data_panic_iff hop).mpr ⟨a, ha, hbad2⟩ with ⟨_, h⟩ | ⟨_, h⟩
      · obtain ⟨r, hr, hb⟩ := (draw_panic_iff s opcode).mp h
        unfold memorySize at hb
        omega
      · rcases (familyF_panic_iff s opcode).mp h with ⟨_, hn⟩ | ⟨_, hn⟩ | ⟨_, hn⟩
        · have := (storeBCD_none_iff s _).mp hn
          unfold memorySize at this
          omega
        · obtain ⟨i, hi, hb⟩ := hstore.mp hn
          unfold memorySize at hb
          omega
        · obtain ⟨i, hi, hb⟩ := hload.mp hn
          unfold memorySize at hb
          omega
  · intro hbad
    cases hop : fetch s with
    | none => simp only [EmulateCycle, hop]
    | some opcode =>
      rcases (data_panic_iff hop).mpr hbad with ⟨hfam, h⟩ | ⟨hfam, h⟩
      · simp only [EmulateCycle, hop, execute, hfam]
        exact h
      · simp only [EmulateCycle, hop, execute, hfam]
        exact h
  · intro hgood hpanic
    cases hop : fetch s with
    | none =>
      rcases (fetch_eq_none_iff s).mp hop with hb | hb
      · have := hgood s.ProgramCounter (by
          rw [memoryAddresses_none hop]
          exact List.mem_cons_self _ _)
        omega
      · have := hgood ((s.ProgramCounter + 1) % 65536) (by
          rw [memoryAddresses_none hop]
          exact List.mem_cons_of_mem _ (List.mem_cons_self _ _))
        omega
    | some opcode =>
      simp only [EmulateCycle, hop] at hpanic
      refine ⟨opcode, rfl, ?_⟩
      rcases execute_panic_cases hpanic with h | h | h | h | h
      · obtain ⟨a, ha, hb⟩ := (data_panic_iff hop).mp (Or.inl h)
        have := hgood a ha
        omega
      · obtain ⟨a, ha, hb⟩ := (data_panic_iff hop).mp (Or.inr h)
        have := hgood a ha
        omega
      · exact Or.inl h
      · exact Or.inr (Or.inl h)
      · exact Or.inr (Or.inr h)

/-! ## C18: the sprite blit -/

theorem and_two_pow_ne_zero (p k : Nat) : p &&& 2 ^ k ≠ 0 ↔ p.testBit k = true := by
  constructor
  · intro h
    by_contra hb
    apply h
    apply Nat.eq_of_testBit_eq
    intro i
    rw [Nat.testBit_and, Nat.testBit_two_pow, Nat.zero_testBit]
    by_cases hki : k = i
    · subst hki
      simp [hb]
    · simp [hki]
  · intro hb h0
    have h1 : (p &&& 2 ^ k).testBit k = true := by
      rw [Nat.testBit_and, Nat.testBit_two_pow_self, hb]
      rfl
    rw [h0, Nat.zero_testBit] at h1
    cases h1

theorem shiftRight_0x80 {c : Nat} (hc : c < 8) : 0x80 >>> c = 2 ^ (7 - c) := by
  rw [Nat.shiftRight_eq_div_pow, show (0x80 : Nat) = 2 ^ 7 from rfl,
    Nat.pow_div (by omega) (by decide)]

theorem shiftRight_0x80_zero {c : Nat} (hc : 8 ≤ c) : 0x80 >>> c = 0 := by
  rw [Nat.shiftRight_eq_div_pow]
  apply Nat.div_eq_of_lt
  calc 0x80 < 2 ^ 8 := by decide
    _ ≤ 2 ^ c := Nat.pow_le_pow_right (by decide) hc

theorem bit_set_iff (pixel c : Nat) :
    pixel &&& (0x80 >>> c) ≠ 0 ↔ c < 8 ∧ pixel.testBit (7 - c) = true := by
  by_cases hc : c < 8
  · rw [shiftRight_0x80 hc, and_two_pow_ne_zero]
    simp [hc]
  · rw [shiftRight_0x80_zero (by omega)]
    simp [hc]

theorem mem_rowOffsets (x y yline pixel o : Nat) :
    o ∈ rowOffsets x y yline pixel ↔
      ∃ c, c < 8 ∧ pixel.testBit (7 - c) = true ∧
        (x + c + (y + yline) * 64) % 65536 < frameBufferSize ∧
        o = (x + c + (y + yline) * 64) % 65536 := by
  unfold rowOffsets
  rw [List.mem_filterMap]
  constructor
  · rintro ⟨c, _, hc⟩
    split at hc
    · rename_i hcond
      cases hc
      obtain ⟨h8, hbit⟩ := (bit_set_iff pixel c).mp hcond.1
      exact ⟨c, h8, hbit, hcond.2, rfl⟩
    · cases hc
  · rintro ⟨c, h8, hbit, hlt, ho⟩
    refine ⟨c, List.mem_range.mpr h8, ?_⟩
    rw [if_pos ⟨(bit_set_iff pixel c).mpr ⟨h8, hbit⟩, hlt⟩, ho]

theorem mem_spriteOffsets (x y I : Nat) (mem : Nat → Nat) (n o : Nat) :
    o ∈ spriteOffsets x y I mem n ↔
      ∃ r, r < n ∧ o ∈ rowOffsets x y r (mem ((I + r) % 65536)) := by
  induction n with
  | zero =>
    simp [spriteOffsets]
  | succ n ih =>
    simp only [spriteOffsets, List.mem_append, ih]
    constructor
    · rintro (⟨r, hr, h⟩ | h)
      · exact ⟨r, Nat.lt_succ_of_lt hr, h⟩
      · exact ⟨n, Nat.lt_succ_self n, h⟩
    · rintro ⟨r, hr, h⟩
      rcases Nat.lt_succ_iff_lt_or_eq.mp hr with h1 | h1
      · exact Or.inl ⟨r, h1, h⟩
      · subst h1
        exact Or.inr h

theorem nodup_rowOffsets (x y yline pixel : Nat) : (rowOffsets x y yline pixel).Nodup := by
  unfold rowOffsets
  apply List.Nodup.filterMap _ (List.nodup_range 8)
  intro a a1 b ha ha1
  split at ha
  · rename_i h1
    split at ha1
    · rename_i h2
      have ha8 := ((bit_set_iff pixel a).mp h1.1).1
      have ha18 := ((bit_set_iff pixel a1).mp h2.1).1
      simp only [Option.mem_def, Option.some.injEq] at ha ha1
      omega
    · cases ha1
  · cases ha

theorem nodup_spriteOffsets (x y I : Nat) (mem : Nat → Nat) (n : Nat)
    (hn : n ≤ 16) : (spriteOffsets x y I mem n).Nodup := by
  induction n with
  | zero => exact List.nodup_nil
  | succ n ih =>
    simp only [spriteOffsets]
    apply List.Nodup.append (ih (by omega)) (nodup_rowOffsets _ _ _ _)
    intro o h1 h2
    obtain ⟨r, hr, h3⟩ := (mem_spriteOffsets x y I mem n o).mp h1
    obtain ⟨c, hc, _, _, e1⟩ := (mem_rowOffsets _ _ _ _ _).mp h3
    obtain ⟨c1, hc1, _, _, e2⟩ := (mem_rowOffsets _ _ _ _ _).mp h2
    omega

theorem foldl_toggle_no_collision (l : List Nat) (s : System) (hl : l.Nodup)
    (h : ∀ k, k ∈ l → s.FrameBuffer k ≠ 1) :
    (l.foldl toggle s).VRegister 0xF = s.VRegister 0xF := by
  induction l generalizing s with
  | nil => rfl
  | cons o l ih =>
    rw [List.foldl_cons]
    have ho : s.FrameBuffer o ≠ 1 := h o (List.mem_cons_self o l)
    have hnd := List.nodup_cons.mp hl
    rw [ih (toggle s o) hnd.2]
    · rw [toggle_VRegister, if_neg ho]
    · intro k hk
      have hne : k ≠ o := fun e => hnd.1 (e ▸ hk)
      rw [toggle_FrameBuffer, Function.update_noteq hne]
      exact h k (List.mem_cons_of_mem o hk)

theorem foldl_toggle_nodup_FrameBuffer (l : List Nat) (s : System) (hl : l.Nodup) (k : Nat) :
    (l.foldl toggle s).FrameBuffer k =
      if k ∈ l then s.FrameBuffer k ^^^ 1 else s.FrameBuffer k := by
  rw [foldl_toggle_FrameBuffer]
  by_cases hk : k ∈ l
  · rw [if_pos hk, List.count_eq_one_of_mem hl hk]
  · rw [if_neg hk, List.count_eq_zero_of_not_mem hk, Nat.xor_zero]

theorem mem_spriteOffsets_iff_target (s : System) (X Y N o : Nat) (hs : s.WellTyped)
    (hX : X < 16) (hY : Y < 16) (hN : N < 16) (hI : s.IndexRegister + N - 1 ≤ 4095) :
    o ∈ spriteOffsets (s.VRegister X) (s.VRegister Y) s.IndexRegister s.memory N ↔
      o < 2048 ∧ spriteTarget s X Y N o := by
  have hvx : s.VRegister X < 256 := hs.2.2.2.1 X hX
  have hvy : s.VRegister Y < 256 := hs.2.2.2.1 Y hY
  rw [mem_spriteOffsets]
  unfold spriteTarget
  constructor
  · rintro ⟨r, hr, h⟩
    obtain ⟨c, hc, hbit, hlt, e⟩ := (mem_rowOffsets _ _ _ _ _).mp h
    have hmod : (s.IndexRegister + r) % 65536 = s.IndexRegister + r := by omega
    have hoff : (s.VRegister X + c + (s.VRegister Y + r) * 64) % 65536 =
        s.VRegister X + c + (s.VRegister Y + r) * 64 := by omega
    rw [hmod] at hbit
    rw [hoff] at hlt e
    unfold frameBufferSize at hlt
    exact ⟨by omega, r, c, hr, hc, hbit, e⟩
  · rintro ⟨ho, r, c, hr, hc, hbit, e⟩
    have hmod : (s.IndexRegister + r) % 65536 = s.IndexRegister + r := by omega
    have hoff : (s.VRegister X + c + (s.VRegister Y + r) * 64) % 65536 =
        s.VRegister X + c + (s.VRegister Y + r) * 64 := by omega
    refine ⟨r, hr, (mem_rowOffsets _ _ _ _ _).mpr ⟨c, hc, ?_, ?_, ?_⟩⟩
    · rw [hmod]
      exact hbit
    · rw [hoff]
      unfold frameBufferSize
      omega
    · rw [hoff]
      exact e

/-- C18. For DXYN with x = VX, y = VY (the values before the step) and I + N - 1 ≤ 4095
the step returns normally and is the sequence of toggles of a list of offsets that are all
below 2048 and pairwise distinct (no target is wrapped, none is toggled twice).  A cell at
an offset o < 2048 is XORed with 1 exactly when o = (x + c) + (y + r) * 64 for a row
r < N and a column c < 8 with bit 7 - c of memory[I + r] set, and is unchanged otherwise.
VF ends as 1 if some toggled cell held 1 before the draw and as 0 otherwise; the redraw
flag is set and the index register and the memory are unchanged. -/
theorem sprite_blit (s : System) (random X Y N : Nat) (hs : s.WellTyped)
    (hX : X < 16) (hY : Y < 16) (hN : N < 16) (hI : s.IndexRegister + N - 1 ≤ 4095)
    (hop : fetch s = some (word 0xD X Y N)) :
    ∃ (s1 : System) (offsets : List Nat), EmulateCycle s random = .ok s1 ∧
      s1 = advance { offsets.foldl toggle (setV s 0xF 0) with Redraw := true } 2 ∧
      offsets.Nodup ∧ (∀ o, o ∈ offsets ↔ o < 2048 ∧ spriteTarget s X Y N o) ∧
      (∀ o, o < 2048 → spriteTarget s X Y N o → s1.FrameBuffer o = s.FrameBuffer o ^^^ 1) ∧
      (∀ o, ¬ (o < 2048 ∧ spriteTarget s X Y N o) → s1.FrameBuffer o = s.FrameBuffer o) ∧
      ((∃ o, o < 2048 ∧ spriteTarget s X Y N o ∧ s.FrameBuffer o = 1) → s1.VRegister 0xF = 1) ∧
      (¬ (∃ o, o < 2048 ∧ spriteTarget s X Y N o ∧ s.FrameBuffer o = 1) →
        s1.VRegister 0xF = 0) ∧
      s1.Redraw = true ∧ s1.IndexRegister = s.IndexRegister ∧ s1.memory = s.memory := by
  have hlow : word 0xD X Y N &&& 0x000F = N := word_low 0xD X Y hN
  have hx : opX (word 0xD X Y N) = X := opX_word 0xD hX hY hN
  have hy : opY (word 0xD X Y N) = Y := opY_word 0xD X hY hN
  have hrows : ∀ r, r < word 0xD X Y N &&& 0x000F →
      (s.IndexRegister + r) % 65536 < memorySize := by
    intro r hr
    rw [hlow] at hr
    unfold memorySize
    omega
  have hnd := nodup_spriteOffsets (s.VRegister X) (s.VRegister Y) s.IndexRegister s.memory N
    (by omega)
  have hmem := fun o => mem_spriteOffsets_iff_target s X Y N o hs hX hY hN hI
  rw [EmulateCycle_draw random hop hX hY hN, draw_eq s _ hrows, hlow, hx, hy]
  refine ⟨_, spriteOffsets (s.VRegister X) (s.VRegister Y) s.IndexRegister s.memory N,
    rfl, rfl, hnd, hmem, ?_, ?_, ?_, ?_, rfl, ?_, ?_⟩
  · intro o ho ht
    show (List.foldl toggle (setV s 0xF 0) _).FrameBuffer o = _
    rw [foldl_toggle_nodup_FrameBuffer _ _ hnd, if_pos ((hmem o).mpr ⟨ho, ht⟩)]
    rfl
  · intro o hnot
    show (List.foldl toggle (setV s 0xF 0) _).FrameBuffer o = _
    rw [foldl_toggle_nodup_FrameBuffer _ _ hnd, if_neg (fun h => hnot ((hmem o).mp h))]
    rfl
  · rintro ⟨o, ho, ht, h1⟩
    show (List.foldl toggle (setV s 0xF 0) _).VRegister 0xF = 1
    exact foldl_toggle_collision _ _ ⟨o, (hmem o).mpr ⟨ho, ht⟩, h1⟩
  · intro hnone
    show (List.foldl toggle (setV s 0xF 0) _).VRegister 0xF = 0
    rw [foldl_toggle_no_collision _ _ hnd]
    · simp [setV]
    · intro k hk h1
      obtain ⟨ho, ht⟩ := (hmem k).mp hk
      exact hnone ⟨k, ho, ht, h1⟩
  · show (List.foldl toggle (setV s 0xF 0) _).IndexRegister = _
    rw [foldl_toggle_IndexRegister]
    rfl
  · show (List.foldl toggle (setV s 0xF 0) _).memory = _
    rw [foldl_toggle_memory]
    rfl

/-- C18, at a concrete input: D012 with V0 = 3, V1 = 4 and I = 0x200 on an empty
framebuffer draws the rows 0xD0 and 0x12: cell 259 = (3 + 0) + (4 + 0) * 64 is set, cell
261 (bit 5 of 0xD0 is clear) stays 0, VF ends as 0 and the redraw flag is set. -/
theorem sprite_blit_witness :
    ∃ s1, EmulateCycle drawTwiceMachine 0 = .ok s1 ∧ s1.FrameBuffer 259 = 1 ∧
      s1.FrameBuffer 261 = 0 ∧ s1.VRegister 0xF = 0 ∧ s1.Redraw = true := by
  obtain ⟨s1, offsets, h1, h2, _, _, _, _, _, h8, h9, _⟩ :=
    sprite_blit drawTwiceMachine 0 0 1 2
      (wellTyped_setIndex (machine_wellTyped (by decide) (by decide)) (by decide))
      (by decide) (by decide) (by decide) (by decide) (by decide)
  have hs1 : s1 = (match EmulateCycle drawTwiceMachine 0 with
      | .ok r => r
      | _ => drawTwiceMachine) := by rw [h1]
  refine ⟨s1, h1, ?_, ?_, ?_, h9⟩
  · rw [hs1]
    decide
  · rw [hs1]
    decide
  · apply h8
    rintro ⟨o, _, _, h⟩
    exact absurd h Nat.zero_ne_one

/-! ## C20: the framebuffer cells are binary -/

theorem foldl_zero (fb : Nat → Nat) (n o : Nat) :
    (List.range n).foldl (fun f i => Function.update f i 0) fb o = if o < n then 0 else fb o := by
  induction n with
  | zero => simp
  | succ n ih =>
    rw [List.range_succ, List.foldl_append, List.foldl_cons, List.foldl_nil]
    by_cases ho : o = n
    · subst ho
      rw [Function.update_same, if_pos (Nat.lt_succ_self _)]
    · rw [Function.update_noteq ho, ih]
      by_cases h1 : o < n
      · rw [if_pos h1, if_pos (by omega)]
      · rw [if_neg h1, if_neg (by omega)]

theorem clearScreen_FrameBuffer (s : System) (o : Nat) :
    (clearScreen s).FrameBuffer o = if o < 2048 then 0 else s.FrameBuffer o := by
  simp only [clearScreen]
  exact foldl_zero _ _ _

theorem xor_one_xor_one (v : Nat) : (v ^^^ 1) ^^^ 1 = v := by
  rw [Nat.xor_assoc, Nat.xor_self, Nat.xor_zero]

theorem foldl_toggle_cell (l : List Nat) (s : System) (o : Nat) :
    (l.foldl toggle s).FrameBuffer o = s.FrameBuffer o ∨
    (l.foldl toggle s).FrameBuffer o = s.FrameBuffer o ^^^ 1 := by
  rw [foldl_toggle_FrameBuffer]
  rcases Nat.mod_two_eq_zero_or_one (List.count o l) with h | h
  · left
    rw [h, Nat.xor_zero]
  · right
    rw [h]

theorem drawRow_cell (x y : Nat) (l : List Nat) (s t : System) (o : Nat)
    (h : l.foldl (drawRow x y) (some s) = some t) :
    t.FrameBuffer o = s.FrameBuffer o ∨ t.FrameBuffer o = s.FrameBuffer o ^^^ 1 := by
  refine foldl_some_invariant
    (fun u => u.FrameBuffer o = s.FrameBuffer o ∨ u.FrameBuffer o = s.FrameBuffer o ^^^ 1)
    (fun _ => rfl) ?_ l s t h (Or.inl rfl)
  intro u i v huv hu
  unfold drawRow at huv
  dsimp only at huv
  split at huv
  · cases huv
    rw [foldl_drawBit]
    rcases foldl_toggle_cell
      (List.filterMap (fun xline =>
        if u.memory ((u.IndexRegister + i) % 65536) &&& (0x80 >>> xline) ≠ 0 ∧
            frameBufferSize > (x + xline + (y + i) * 64) % 65536
        then some ((x + xline + (y + i) * 64) % 65536) else none) (List.range 8)) u o with e | e
    · rw [e]
      exact hu
    · rw [e]
      rcases hu with e2 | e2
      · right
        rw [e2]
      · left
        rw [e2, xor_one_xor_one]
  · cases huv

theorem draw_cell {s s1 : System} {opcode : Nat} (h : draw s opcode = .ok s1) (o : Nat) :
    s1.FrameBuffer o = s.FrameBuffer o ∨ s1.FrameBuffer o = s.FrameBuffer o ^^^ 1 := by
  simp only [draw] at h
  split at h
  · cases h
  · rename_i t ht
    cases h
    exact drawRow_cell _ _ _ (setV s 0xF 0) t o ht

theorem storeStep_FrameBuffer (l : List Nat) (s t : System)
    (h : l.foldl storeStep (some s) = some t) : t.FrameBuffer = s.FrameBuffer := by
  refine foldl_some_invariant (fun u => u.FrameBuffer = s.FrameBuffer) (fun _ => rfl)
    ?_ l s t h rfl
  intro u i v huv hu
  unfold storeStep at huv
  dsimp only at huv
  split at huv
  · cases huv
    exact hu
  · cases huv

theorem loadStep_FrameBuffer (l : List Nat) (s t : System)
    (h : l.foldl loadStep (some s) = some t) : t.FrameBuffer = s.FrameBuffer := by
  refine foldl_some_invariant (fun u => u.FrameBuffer = s.FrameBuffer) (fun _ => rfl)
    ?_ l s t h rfl
  intro u i v huv hu
  unfold loadStep at huv
  dsimp only at huv
  split at huv
  · cases huv
    exact hu
  · cases huv

theorem storeBCD_FrameBuffer (s t : System) (v : Nat) (h : storeBCD s v = some t) :
    t.FrameBuffer = s.FrameBuffer := by
  unfold storeBCD at h
  dsimp only at h
  split at h
  · split at h
    · split at h
      · cases h
        rfl
      · cases h
    · cases h
  · cases h

theorem family8_FrameBuffer {s s1 : System} {opcode : Nat} (h : family8 s opcode = .ok s1) :
    s1.FrameBuffer = s.FrameBuffer := by
  unfold family8 at h
  dsimp only at h
  split at h
  all_goals first
    | (cases h; rfl)
    | (cases h; simp [advance, setV, apply_ite System.FrameBuffer])
    | cases h

theorem skipIf_FrameBuffer (s : System) (c : Bool) :
    (skipIf s c).FrameBuffer = s.FrameBuffer := by
  unfold skipIf
  split <;> rfl

theorem familyE_FrameBuffer {s s1 : System} {opcode : Nat} (h : familyE s opcode = .ok s1) :
    s1.FrameBuffer = s.FrameBuffer := by
  unfold familyE at h
  split at h
  · split at h
    · cases h
      exact skipIf_FrameBuffer _ _
    · cases h
  · split at h
    · cases h
      exact skipIf_FrameBuffer _ _
    · cases h
  · cases h

theorem finishF_FrameBuffer {t s1 : System} (h : finishF (some t) = .ok s1) :
    s1.FrameBuffer = t.FrameBuffer := by
  cases h
  exact updateTimers_FrameBuffer t

theorem finishF_map_FrameBuffer {r : Option System} {g : System → System} {s1 : System}
    (h : finishF (r.map g) = .ok s1) : ∃ t, r = some t ∧ s1.FrameBuffer = (g t).FrameBuffer := by
  cases r with
  | none => cases h
  | some u => exact ⟨u, rfl, finishF_FrameBuffer h⟩

theorem familyF_FrameBuffer {s s1 : System} {opcode : Nat} (h : familyF s opcode = .ok s1) :
    s1.FrameBuffer = s.FrameBuffer := by
  unfold familyF at h
  dsimp only at h
  split at h
  · have e := finishF_FrameBuffer h
    exact e
  · rcases foldl_keyWaitStep s (opX opcode) 16 with ⟨_, e⟩ | ⟨k, _, _, e⟩
    · rw [e] at h
      simp only [Bool.not_false, if_true] at h
      cases h
      rfl
    · rw [e] at h
      have h3 : finishF (some (advance (setV s (opX opcode) k) 2)) = .ok s1 := by
        simpa using h
      have e2 := finishF_FrameBuffer h3
      exact e2
  · have e := finishF_FrameBuffer h
    exact e
  · have e := finishF_FrameBuffer h
    exact e
  · have e := finishF_FrameBuffer h
    rw [e]
    simp [advance, setV, apply_ite System.FrameBuffer]
  · have e := finishF_FrameBuffer h
    exact e
  · obtain ⟨t, ht, h1⟩ := finishF_map_FrameBuffer h
    rw [h1]
    have e := storeBCD_FrameBuffer _ _ _ ht
    exact e
  · obtain ⟨t, ht, h1⟩ := finishF_map_FrameBuffer h
    rw [h1]
    have e := storeStep_FrameBuffer _ _ _ ht
    exact e
  · obtain ⟨t, ht, h1⟩ := finishF_map_FrameBuffer h
    rw [h1]
    have e := loadStep_FrameBuffer _ _ _ ht
    exact e
  · cases h

theorem execute_cell {s s1 : System} {random opcode : Nat}
    (h : execute s random opcode = .ok s1) (o : Nat) :
    s1.FrameBuffer o = s.FrameBuffer o ∨
    (opcode &&& 0xF000 = 0x0000 ∧ opcode &&& 0x000F = 0x0000 ∧ s1.FrameBuffer o = 0) ∨
    (opcode &&& 0xF000 = 0xD000 ∧ s1.FrameBuffer o = s.FrameBuffer o ^^^ 1) := by
  unfold execute at h
  split at h
  · rename_i hfam
    split at h
    · rename_i hlow
      cases h
      have e : (advance (clearScreen s) 2).FrameBuffer o = (clearScreen s).FrameBuffer o := by
        simp only [advance]
      rw [e, clearScreen_FrameBuffer]
      by_cases ho : o < 2048
      · right; left
        exact ⟨hfam, hlow, if_pos ho⟩
      · left
        exact if_neg ho
    · dsimp only at h
      split at h
      · cases h
        exact Or.inl rfl
      · cases h
    · cases h
  · cases h; exact Or.inl rfl
  · split at h
    · cases h; exact Or.inl rfl
    · cases h
  · cases h; exact Or.inl (congrFun (skipIf_FrameBuffer _ _) o)
  · cases h; exact Or.inl (congrFun (skipIf_FrameBuffer _ _) o)
  · cases h; exact Or.inl (congrFun (skipIf_FrameBuffer _ _) o)
  · cases h; exact Or.inl rfl
  · cases h; exact Or.inl rfl
  · exact Or.inl (congrFun (family8_FrameBuffer h) o)
  · cases h; exact Or.inl (congrFun (skipIf_FrameBuffer _ _) o)
  · cases h; exact Or.inl rfl
  · cases h; exact Or.inl rfl
  · cases h; exact Or.inl rfl
  · rename_i hfam
    rcases draw_cell h o with e | e
    · exact Or.inl e
    · exact Or.inr (Or.inr ⟨hfam, e⟩)
  · exact Or.inl (congrFun (familyE_FrameBuffer h) o)
  · exact Or.inl (congrFun (familyF_FrameBuffer h) o)
  · cases h; exact Or.inl rfl

theorem binary_xor_one {v : Nat} (h : v = 0 ∨ v = 1) : v ^^^ 1 = 0 ∨ v ^^^ 1 = 1 := by
  rcases h with h | h
  · right
    rw [h]
    decide
  · left
    rw [h]
    decide

theorem LoadRom_FrameBuffer {s s1 : System} {buffer : List Nat}
    (h : LoadRom s buffer = .ok s1) : s1.FrameBuffer = s.FrameBuffer := by
  unfold LoadRom at h
  split at h
  · cases h
    rfl
  · cases h

theorem SetKeyState_FrameBuffer {s s1 : System} {keyindex : Int} {value : Nat}
    (h : SetKeyState s keyindex value = .ok s1) : s1.FrameBuffer = s.FrameBuffer := by
  unfold SetKeyState at h
  split at h
  · cases h
  · split at h
    · cases h
    · split at h
      · cases h
        rfl
      · cases h

/-- C20. The framebuffer is all zero at construction.  From every state in which each of
the 2048 cells is 0 or 1, every `EmulateCycle` that returns (normally or with an error)
leaves each cell 0 or 1; hence every cell is 0 or 1 in every reachable state.  A step
changes a cell only by clearing the screen (the cell becomes 0) or by drawing (the cell
is XORed with 1). -/
theorem framebuffer_binary (memory0 : Nat → Nat) (soundTimer0 : Nat) :
    (∀ o, (New memory0 soundTimer0).FrameBuffer o = 0) ∧
    (∀ (s s1 : System) (random : Nat),
      (∀ o, o < 2048 → s.FrameBuffer o = 0 ∨ s.FrameBuffer o = 1) →
      (EmulateCycle s random = .ok s1 ∨ ∃ f op, EmulateCycle s random = .error s1 f op) →
      ∀ o, o < 2048 → s1.FrameBuffer o = 0 ∨ s1.FrameBuffer o = 1) ∧
    (∀ s, Reachable memory0 soundTimer0 s →
      ∀ o, o < 2048 → s.FrameBuffer o = 0 ∨ s.FrameBuffer o = 1) ∧
    (∀ (s s1 : System) (random opcode : Nat), fetch s = some opcode →
      EmulateCycle s random = .ok s1 →
      ∀ o, s1.FrameBuffer o = s.FrameBuffer o ∨
        (opcode &&& 0xF000 = 0x0000 ∧ opcode &&& 0x000F = 0x0000 ∧ s1.FrameBuffer o = 0) ∨
        (opcode &&& 0xF000 = 0xD000 ∧ s1.FrameBuffer o = s.FrameBuffer o ^^^ 1)) := by
  have hchange : ∀ (s s1 : System) (random opcode : Nat), fetch s = some opcode →
      EmulateCycle s random = .ok s1 →
      ∀ o, s1.FrameBuffer o = s.FrameBuffer o ∨
        (opcode &&& 0xF000 = 0x0000 ∧ opcode &&& 0x000F = 0x0000 ∧ s1.FrameBuffer o = 0) ∨
        (opcode &&& 0xF000 = 0xD000 ∧ s1.FrameBuffer o = s.FrameBuffer o ^^^ 1) := by
    intro s s1 random opcode hop h o
    simp only [EmulateCycle, hop] at h
    exact execute_cell h o
  have hstep : ∀ (s s1 : System) (random : Nat),
      (∀ o, o < 2048 → s.FrameBuffer o = 0 ∨ s.FrameBuffer o = 1) →
      (EmulateCycle s random = .ok s1 ∨ ∃ f op, EmulateCycle s random = .error s1 f op) →
      ∀ o, o < 2048 → s1.FrameBuffer o = 0 ∨ s1.FrameBuffer o = 1 := by
    intro s s1 random hbin h o ho
    rcases h with h | ⟨f, op, h⟩
    · cases hop : fetch s with
      | none =>
        simp only [EmulateCycle, hop] at h
        cases h
      | some opcode =>
        rcases hchange s s1 random opcode hop h o with e | ⟨_, _, e⟩ | ⟨_, e⟩
        · rw [e]
          exact hbin o ho
        · exact Or.inl e
        · rw [e]
          exact binary_xor_one (hbin o ho)
    · cases hop : fetch s with
      | none =>
        simp only [EmulateCycle, hop] at h
        cases h
      | some opcode =>
        simp only [EmulateCycle, hop] at h
        obtain ⟨e, _, _⟩ := execute_error h
        rw [e]
        exact hbin o ho
  refine ⟨fun _ => rfl, hstep, ?_, hchange⟩
  intro s hr
  induction hr with
  | fresh => exact fun o _ => Or.inl rfl
  | load h =>
    intro o _
    rw [LoadRom_FrameBuffer h]
    exact Or.inl rfl
  | step _ h ih => exact hstep _ _ _ ih (Or.inl h)
  | key _ h ih =>
    intro o ho
    rw [SetKeyState_FrameBuffer h]
    exact ih o ho
  | redrawn _ ih => exact ih

/-! ## C7: call and return -/

theorem updateTimers_stack (s : System) :
    (updateTimers s).StackPointer = s.StackPointer ∧ (updateTimers s).Stack = s.Stack := by
  simp only [updateTimers]
  split_ifs <;> exact ⟨rfl, rfl⟩

theorem foldl_toggle_stack (l : List Nat) (s : System) :
    (l.foldl toggle s).StackPointer = s.StackPointer ∧ (l.foldl toggle s).Stack = s.Stack := by
  induction l generalizing s with
  | nil => exact ⟨rfl, rfl⟩
  | cons o l ih =>
    rw [List.foldl_cons]
    obtain ⟨h1, h2⟩ := ih (toggle s o)
    rw [h1, h2]
    unfold toggle
    split <;> exact ⟨rfl, rfl⟩

theorem drawRow_stack (x y : Nat) (l : List Nat) (s t : System)
    (h : l.foldl (drawRow x y) (some s) = some t) :
    t.StackPointer = s.StackPointer ∧ t.Stack = s.Stack := by
  refine foldl_some_invariant
    (fun u => u.StackPointer = s.StackPointer ∧ u.Stack = s.Stack) (fun _ => rfl)
    ?_ l s t h ⟨rfl, rfl⟩
  intro u i v huv hu
  unfold drawRow at huv
  dsimp only at huv
  split at huv
  · cases huv
    rw [foldl_drawBit]
    obtain ⟨h1, h2⟩ := foldl_toggle_stack
      (List.filterMap (fun xline =>
        if u.memory ((u.IndexRegister + i) % 65536) &&& (0x80 >>> xline) ≠ 0 ∧
            frameBufferSize > (x + xline + (y + i) * 64) % 65536
        then some ((x + xline + (y + i) * 64) % 65536) else none) (List.range 8)) u
    exact ⟨h1.trans hu.1, h2.trans hu.2⟩
  · cases huv

theorem storeStep_stack (l : List Nat) (s t : System)
    (h : l.foldl storeStep (some s) = some t) :
    t.StackPointer = s.StackPointer ∧ t.Stack = s.Stack := by
  refine foldl_some_invariant
    (fun u => u.StackPointer = s.StackPointer ∧ u.Stack = s.Stack) (fun _ => rfl)
    ?_ l s t h ⟨rfl, rfl⟩
  intro u i v huv hu
  unfold storeStep at huv
  dsimp only at huv
  split at huv
  · cases huv
    exact hu
  · cases huv

theorem loadStep_stack (l : List Nat) (s t : System)
    (h : l.foldl loadStep (some s) = some t) :
    t.StackPointer = s.StackPointer ∧ t.Stack = s.Stack := by
  refine foldl_some_invariant
    (fun u => u.StackPointer = s.StackPointer ∧ u.Stack = s.Stack) (fun _ => rfl)
    ?_ l s t h ⟨rfl, rfl⟩
  intro u i v huv hu
  unfold loadStep at huv
  dsimp only at huv
  split at huv
  · cases huv
    exact hu
  · cases huv

theorem storeBCD_stack (s t : System) (v : Nat) (h : storeBCD s v = some t) :
    t.StackPointer = s.StackPointer ∧ t.Stack = s.Stack := by
  unfold storeBCD at h
  dsimp only at h
  split at h
  · split at h
    · split at h
      · cases h
        exact ⟨rfl, rfl⟩
      · cases h
    · cases h
  · cases h

theorem family8_stack {s s1 : System} {opcode : Nat} (h : family8 s opcode = .ok s1) :
    s1.StackPointer = s.StackPointer ∧ s1.Stack = s.Stack := by
  unfold family8 at h
  dsimp only at h
  split at h
  all_goals first
    | (cases h; exact ⟨rfl, rfl⟩)
    | (cases h
       constructor
       · simp [advance, setV, apply_ite System.StackPointer]
       · simp [advance, setV, apply_ite System.Stack])
    | cases h

theorem skipIf_stack (s : System) (c : Bool) :
    (skipIf s c).StackPointer = s.StackPointer ∧ (skipIf s c).Stack = s.Stack := by
  unfold skipIf
  split <;> exact ⟨rfl, rfl⟩

theorem familyE_stack {s s1 : System} {opcode : Nat} (h : familyE s opcode = .ok s1) :
    s1.StackPointer = s.StackPointer ∧ s1.Stack = s.Stack := by
  unfold familyE at h
  split at h
  · split at h
    · cases h
      exact skipIf_stack _ _
    · cases h
  · split at h
    · cases h
      exact skipIf_stack _ _
    · cases h
  · cases h

theorem draw_stack {s s1 : System} {opcode : Nat} (h : draw s opcode = .ok s1) :
    s1.StackPointer = s.StackPointer ∧ s1.Stack = s.Stack := by
  simp only [draw] at h
  split at h
  · cases h
  · rename_i t ht
    cases h
    exact drawRow_stack _ _ _ (setV s 0xF 0) t ht

theorem finishF_stack {t s1 : System} (h : finishF (some t) = .ok s1) :
    s1.StackPointer = t.StackPointer ∧ s1.Stack = t.Stack := by
  cases h
  exact updateTimers_stack t

theorem finishF_map_stack {r : Option System} {g : System → System} {s1 : System}
    (h : finishF (r.map g) = .ok s1) :
    ∃ t, r = some t ∧ s1.StackPointer = (g t).StackPointer ∧ s1.Stack = (g t).Stack := by
  cases r with
  | none => cases h
  | some u => exact ⟨u, rfl, finishF_stack h⟩

theorem familyF_stack {s s1 : System} {opcode : Nat} (h : familyF s opcode = .ok s1) :
    s1.StackPointer = s.StackPointer ∧ s1.Stack = s.Stack := by
  unfold familyF at h
  dsimp only at h
  split at h
  · have e := finishF_stack h
    exact e
  · rcases foldl_keyWaitStep s (opX opcode) 16 with ⟨_, e⟩ | ⟨k, _, _, e⟩
    · rw [e] at h
      simp only [Bool.not_false, if_true] at h
      cases h
      exact ⟨rfl, rfl⟩
    · rw [e] at h
      have h3 : finishF (some (advance (setV s (opX opcode) k) 2)) = .ok s1 := by
        simpa using h
      have e2 := finishF_stack h3
      exact e2
  · have e := finishF_stack h
    exact e
  · have e := finishF_stack h
    exact e
  · obtain ⟨e1, e2⟩ := finishF_stack h
    rw [e1, e2]
    constructor
    · simp [advance, setV, apply_ite System.StackPointer]
    · simp [advance, setV, apply_ite System.Stack]
  · have e := finishF_stack h
    exact e
  · obtain ⟨t, ht, h1, h2⟩ := finishF_map_stack h
    rw [h1, h2]
    have e := storeBCD_stack _ _ _ ht
    exact e
  · obtain ⟨t, ht, h1, h2⟩ := finishF_map_stack h
    rw [h1, h2]
    have e := storeStep_stack _ _ _ ht
    exact e
  · obtain ⟨t, ht, h1, h2⟩ := finishF_map_stack h
    rw [h1, h2]
    have e := loadStep_stack _ _ _ ht
    exact e
  · cases h

/-- What a step that returns does to the call stack, from a state with SP ≤ 16: nothing,
or the push of 2NNN (which needs SP < 16), or the pop of 00EE (which needs SP > 0). -/
theorem execute_stack {s s1 : System} {random opcode : Nat}
    (h : execute s random opcode = .ok s1) (hsp : s.StackPointer ≤ 16) :
    (s1.StackPointer = s.StackPointer ∧ s1.Stack = s.Stack) ∨
    (s.StackPointer < 16 ∧ s1.StackPointer = s.StackPointer + 1 ∧
      s1.Stack = Function.update s.Stack s.StackPointer s.ProgramCounter) ∨
    (0 < s.StackPointer ∧ s1.StackPointer = s.StackPointer - 1 ∧ s1.Stack = s.Stack) := by
  unfold execute at h
  split at h
  · split at h
    · cases h
      left
      constructor <;> simp only [advance, clearScreen]
    · dsimp only at h
      split at h
      · rename_i hlt
        cases h
        right; right
        have h0 : 0 < s.StackPointer := by omega
        refine ⟨h0, ?_, rfl⟩
        show (s.StackPointer + 65535) % 65536 = s.StackPointer - 1
        omega
      · cases h
    · cases h
  · cases h; exact Or.inl ⟨rfl, rfl⟩
  · split at h
    · rename_i hlt
      cases h
      right; left
      refine ⟨hlt, ?_, rfl⟩
      show (s.StackPointer + 1) % 65536 = s.StackPointer + 1
      omega
    · cases h
  · cases h; exact Or.inl (skipIf_stack _ _)
  · cases h; exact Or.inl (skipIf_stack _ _)
  · cases h; exact Or.inl (skipIf_stack _ _)
  · cases h; exact Or.inl ⟨rfl, rfl⟩
  · cases h; exact Or.inl ⟨rfl, rfl⟩
  · exact Or.inl (family8_stack h)
  · cases h; exact Or.inl (skipIf_stack _ _)
  · cases h; exact Or.inl ⟨rfl, rfl⟩
  · cases h; exact Or.inl ⟨rfl, rfl⟩
  · cases h; exact Or.inl ⟨rfl, rfl⟩
  · exact Or.inl (draw_stack h)
  · exact Or.inl (familyE_stack h)
  · exact Or.inl (familyF_stack h)
  · cases h; exact Or.inl ⟨rfl, rfl⟩

theorem LoadRom_stack {s s1 : System} {buffer : List Nat}
    (h : LoadRom s buffer = .ok s1) :
    s1.StackPointer = s.StackPointer ∧ s1.Stack = s.Stack := by
  unfold LoadRom at h
  split at h
  · cases h
    exact ⟨rfl, rfl⟩
  · cases h

theorem SetKeyState_stack {s s1 : System} {keyindex : Int} {value : Nat}
    (h : SetKeyState s keyindex value = .ok s1) :
    s1.StackPointer = s.StackPointer ∧ s1.Stack = s.Stack := by
  unfold SetKeyState at h
  split at h
  · cases h
  · split at h
    · cases h
    · split at h
      · cases h
        exact ⟨rfl, rfl⟩
      · cases h

/-- The call stack of every reachable state: the stack pointer is in 0..16 and every slot
holds 0 or the address of a fetched call, which is at most 4094. -/
theorem reachable_stack {memory0 : Nat → Nat} {soundTimer0 : Nat} {s : System}
    (hr : Reachable memory0 soundTimer0 s) :
    s.StackPointer ≤ 16 ∧ ∀ i, s.Stack i + 1 < 4096 := by
  induction hr with
  | fresh => exact ⟨Nat.zero_le _, fun _ => (by decide : (0 : Nat) + 1 < 4096)⟩
  | load h =>
    obtain ⟨e1, e2⟩ := LoadRom_stack h
    rw [e1, e2]
    exact ⟨Nat.zero_le _, fun _ => (by decide : (0 : Nat) + 1 < 4096)⟩
  | @step s s1 random _ h ih =>
    obtain ⟨ih1, ih2⟩ := ih
    cases hop : fetch s with
    | none =>
      simp only [EmulateCycle, hop] at h
      cases h
    | some opcode =>
      have hpc := fetch_bound hop
      simp only [EmulateCycle, hop] at h
      rcases execute_stack h ih1 with ⟨e1, e2⟩ | ⟨hlt, e1, e2⟩ | ⟨h0, e1, e2⟩
      · rw [e1, e2]
        exact ⟨ih1, ih2⟩
      · rw [e1, e2]
        refine ⟨by omega, fun i => ?_⟩
        by_cases hi : i = s.StackPointer
        · rw [hi, Function.update_same]
          exact hpc
        · rw [Function.update_noteq hi]
          exact ih2 i
      · rw [e1, e2]
        exact ⟨by omega, ih2⟩
  | key _ h ih =>
    obtain ⟨e1, e2⟩ := SetKeyState_stack h
    rw [e1, e2]
    exact ih
  | redrawn _ ih => exact ih

/-- C7. In every state the host loop can produce the stack pointer is in 0..16.  From
such a state with SP < 16, opcode 2NNN stores the current PC in Stack[SP], increments SP
by one, sets PC to NNN and changes no other stack slot; from such a state with SP > 0,
opcode 00EE decrements SP, sets PC to Stack[SP] + 2 (SP the decremented value) and changes
no stack slot.  Consequently a call executed at address p, whose target holds 00EE,
followed immediately by that return resumes at p + 2 with the stack pointer and every
earlier stack slot as before the call. -/
theorem call_return (memory0 : Nat → Nat) (soundTimer0 : Nat) (s : System)
    (random random1 b c d : Nat) (hr : Reachable memory0 soundTimer0 s)
    (hb : b < 16) (hc : c < 16) (hd : d < 16) :
    s.StackPointer ≤ 16 ∧
    (fetch s = some (word 2 b c d) → s.StackPointer < 16 →
      ∃ s1, EmulateCycle s random = .ok s1 ∧ s1.Stack s.StackPointer = s.ProgramCounter ∧
        s1.StackPointer = s.StackPointer + 1 ∧ s1.ProgramCounter = b * 256 + c * 16 + d ∧
        ∀ i, i ≠ s.StackPointer → s1.Stack i = s.Stack i) ∧
    (fetch s = some (word 0 0 0xE 0xE) → 0 < s.StackPointer →
      ∃ s1, EmulateCycle s random = .ok s1 ∧ s1.StackPointer = s.StackPointer - 1 ∧
        s1.ProgramCounter = s.Stack s1.StackPointer + 2 ∧ s1.Stack = s.Stack) ∧
    (fetch s = some (word 2 b c d) → s.StackPointer < 16 →
      fetch { s with ProgramCounter := b * 256 + c * 16 + d } = some (word 0 0 0xE 0xE) →
      ∃ s1 s2, EmulateCycle s random = .ok s1 ∧ EmulateCycle s1 random1 = .ok s2 ∧
        s2.ProgramCounter = s.ProgramCounter + 2 ∧ s2.StackPointer = s.StackPointer ∧
        ∀ i, i < s.StackPointer → s2.Stack i = s.Stack i) := by
  obtain ⟨h16, hslot⟩ := reachable_stack hr
  refine ⟨h16, ?_, ?_, ?_⟩
  · intro hop hsp
    refine ⟨_, EmulateCycle_call random hb hc hd hop hsp, ?_, ?_, rfl, ?_⟩
    · simp
    · show (s.StackPointer + 1) % 65536 = s.StackPointer + 1
      omega
    · intro i hi
      simp [Function.update_apply, hi]
  · intro hop h0
    refine ⟨_, EmulateCycle_return random hop h0 h16, rfl, ?_, rfl⟩
    show (s.Stack (s.StackPointer - 1) + 2) % 65536 = s.Stack (s.StackPointer - 1) + 2
    have := hslot (s.StackPointer - 1)
    omega
  · intro hop hsp hop1
    have hpc := fetch_bound hop
    have hsp1 : (s.StackPointer + 1) % 65536 = s.StackPointer + 1 := by omega
    refine ⟨_, _, EmulateCycle_call random hb hc hd hop hsp,
      EmulateCycle_return random1 ?_ ?_ ?_, ?_, ?_, ?_⟩
    · exact hop1
    · show 0 < (s.StackPointer + 1) % 65536
      omega
    · show (s.StackPointer + 1) % 65536 ≤ 16
      omega
    · show (Function.update s.Stack s.StackPointer s.ProgramCounter
        ((s.StackPointer + 1) % 65536 - 1) + 2) % 65536 = s.ProgramCounter + 2
      rw [hsp1, Nat.add_sub_cancel, Function.update_same]
      omega
    · show (s.StackPointer + 1) % 65536 - 1 = s.StackPointer
      omega
    · intro i hi
      show Function.update s.Stack s.StackPointer s.ProgramCounter i = s.Stack i
      rw [Function.update_noteq (by omega)]

/-- C7 at a concrete input: the ROM 22 04 00 00 00 EE is accepted by `LoadRom`; the call
2204 at 0x200 pushes 0x200 and jumps to 0x204, and the return 00EE found there resumes at
0x202 with SP = 0. -/
theorem call_return_witness :
    ∃ s0 s1 s2, LoadRom (New (fun _ => 0) 0) [0x22, 0x04, 0x00, 0x00, 0x00, 0xEE] = .ok s0 ∧
      EmulateCycle s0 0 = .ok s1 ∧ EmulateCycle s1 0 = .ok s2 ∧
      s1.ProgramCounter = 0x204 ∧ s1.StackPointer = 1 ∧ s1.Stack 0 = 0x200 ∧
      s2.ProgramCounter = 0x202 ∧ s2.StackPointer = 0 := by
  have hl : ∃ s0, LoadRom (New (fun _ => 0) 0) [0x22, 0x04, 0x00, 0x00, 0x00, 0xEE] = .ok s0 ∧
      fetch s0 = some (word 2 2 0 4) ∧ s0.StackPointer < 16 ∧
      fetch { s0 with ProgramCounter := 2 * 256 + 0 * 16 + 4 } = some (word 0 0 0xE 0xE) ∧
      s0.ProgramCounter = 0x200 ∧ s0.StackPointer = 0 :=
    ⟨_, rfl, by decide, by decide, by decide, rfl, rfl⟩
  obtain ⟨s0, hl, hf, hsp, hf2, hpc, hsp0⟩ := hl
  obtain ⟨_, hcall, _, hboth⟩ := call_return (fun _ => 0) 0 s0 0 0 2 0 4 (Reachable.load hl)
    (by decide) (by decide) (by decide)
  obtain ⟨s1, h1, e1, e2, e3, _⟩ := hcall hf hsp
  obtain ⟨t1, s2, g1, g2, g3, g4, _⟩ := hboth hf hsp hf2
  rw [h1] at g1
  cases g1
  refine ⟨s0, s1, s2, hl, h1, g2, e3, ?_, ?_, ?_, ?_⟩
  · rw [e2, hsp0]
  · rw [← hsp0, e1, hpc]
  · rw [g3, hpc]
  · rw [g4, hsp0]

end Chip8
